import Mathlib

/-!
Verification of the GIF-frame extraction engine (`gif_parser.py`, `png_writer.py`)
against its natural-language specification.

The Python source is shallowly embedded: bytes are `Nat` values below 256,
byte strings are `List Nat`, Python lists are Lean lists, dictionaries are
association lists, and the `while` loops that consume the input stream are
written as fuel-indexed recursions (the fuel is chosen far above the number of
iterations the Python loop can make, and every property proved below is
independent of the fuel value, since on fuel exhaustion the loop returns its
accumulated result exactly as a `break` would).
-/

namespace GifSpec

/-- RGB color triple; the source models colors as Python tuples `(r, g, b)`. -/
abbrev Color := Nat × Nat × Nat

/-- A canvas is a list of rows of colors, as in the source
(`List[List[Tuple[int, int, int]]]`). -/
abbrev Canvas := List (List Color)

instance : DecidableEq Color := inferInstance

instance : DecidableEq Canvas := inferInstance

instance : DecidableEq (Nat × Canvas) := inferInstance

instance : DecidableEq (List (Nat × Canvas)) := inferInstance

instance : DecidableEq (Option Canvas) := inferInstance

instance {α β : Type} [DecidableEq α] [DecidableEq β] :
    DecidableEq (Except α β)
  | .error a, .error b =>
    match decEq a b with
    | isTrue h => isTrue (by rw [h])
    | isFalse h => isFalse (by intro hc; cases hc; exact h rfl)
  | .error _, .ok _ => isFalse (fun hc => Except.noConfusion hc)
  | .ok _, .error _ => isFalse (fun hc => Except.noConfusion hc)
  | .ok a, .ok b =>
    match decEq a b with
    | isTrue h => isTrue (by rw [h])
    | isFalse h => isFalse (by intro hc; cases hc; exact h rfl)

/-! ## LZW decompressor (`GIFParser.lzw_decompress`) -/

/-- State of the LSB-first bit reader inside `lzw_decompress`
(`bit_buffer`, `bits_in_buffer`, `byte_pos`, `bit_pos`). -/
structure BitState where
  bitBuffer : Nat
  bitsInBuffer : Nat
  bytePos : Nat
  bitPos : Nat
  deriving DecidableEq, Repr

/-- The body of the inner bit-filling loop of `lzw_decompress`, driven by a
structural fuel counter; every iteration raises `bits_in_buffer` by one, so the
loop makes at most `code_size` iterations and `fillBits` passes exactly that
as fuel. -/
def fillBitsAux (data : List Nat) (codeSize : Nat) :
    Nat → BitState → BitState
  | 0, s => s
  | fuel + 1, s =>
    if s.bitsInBuffer < codeSize ∧ s.bytePos < data.length then
      let byte := data.getD s.bytePos 0
      let bit := (byte >>> s.bitPos) % 2
      let buf := s.bitBuffer ||| (bit <<< s.bitsInBuffer)
      let s' : BitState :=
        ⟨buf, s.bitsInBuffer + 1,
         if s.bitPos + 1 ≥ 8 then s.bytePos + 1 else s.bytePos,
         if s.bitPos + 1 ≥ 8 then 0 else s.bitPos + 1⟩
      fillBitsAux data codeSize fuel s'
    else s

/-- The inner bit-filling loop of `lzw_decompress`:
`while bits_in_buffer < code_size and byte_pos < len(compressed_data)`,
pulling single bits LSB-first out of the current byte. -/
def fillBits (data : List Nat) (codeSize : Nat) (s : BitState) : BitState :=
  fillBitsAux data codeSize codeSize s

/-- The LZW dictionary of `lzw_decompress`.  The Python dictionary holds the
base entries `i -> [i]` for `i < clear_code` plus the grown entries starting
at key `clear_code + 2`; the keys `clear_code` and `clear_code + 1` are never
present (they are the clear and end codes).  We keep only the grown entries;
the base entries are reconstructed by `lzwLookup`. -/
structure LzwState where
  codeSize : Nat
  maxCode : Nat
  extras : List (List Nat)
  bits : BitState
  oldCode : Option Nat
  result : List Nat
  deriving DecidableEq, Repr

/-- `dict_size` of the Python dictionary: `end_code + 1` plus the grown
entries. -/
def lzwDictSize (clearCode : Nat) (extras : List (List Nat)) : Nat :=
  clearCode + 2 + extras.length

/-- `dictionary[c]` : `some` when the key is present, `none` when Python
would raise `KeyError` (which `lzw_decompress` catches, abandoning the loop). -/
def lzwLookup (clearCode : Nat) (extras : List (List Nat)) (c : Nat) :
    Option (List Nat) :=
  if c < clearCode then some [c]
  else if clearCode + 2 ≤ c then extras.get? (c - (clearCode + 2))
  else none

/-- Result of one iteration of the decoding loop: either the loop breaks
(or an exception is caught) carrying the decoded indices, or it continues. -/
inductive LzwStep where
  | done (r : List Nat)
  | next (s : LzwState)
  deriving DecidableEq, Repr

/-- The tail of a loop iteration once a `sequence` has been resolved
(the Python `if sequence: ...` block followed by `old_code = current_code`
and the `len(result) >= width * height` break check). -/
def lzwAfterSeq (minCodeSize target : Nat) (s : LzwState) (bits : BitState)
    (currentCode oldCode : Nat) (seq : List Nat) : LzwStep :=
  let clearCode := 1 <<< minCodeSize
  let dictSize := lzwDictSize clearCode s.extras
  if seq = [] then
    -- `if sequence:` is false for an empty list: nothing is emitted or added
    let s' : LzwState := { s with bits := bits, oldCode := some currentCode }
    if target ≤ s'.result.length then .done s'.result else .next s'
  else
    let result' := s.result ++ seq
    if dictSize < 4096 ∧ oldCode < dictSize then
      match lzwLookup clearCode s.extras oldCode with
      | none => .done result'  -- KeyError during dictionary growth
      | some oseq =>
        let extras' := s.extras ++ [oseq ++ [seq.headD 0]]
        let grow := lzwDictSize clearCode extras' > s.maxCode ∧ s.codeSize < 12
        let s' : LzwState :=
          { codeSize := if grow then s.codeSize + 1 else s.codeSize
            maxCode := if grow then (1 <<< (s.codeSize + 1)) - 1 else s.maxCode
            extras := extras'
            bits := bits
            oldCode := some currentCode
            result := result' }
        if target ≤ s'.result.length then .done s'.result else .next s'
    else
      let s' : LzwState :=
        { s with bits := bits, oldCode := some currentCode, result := result' }
      if target ≤ s'.result.length then .done s'.result else .next s'

/-- One iteration of the `while byte_pos < len(compressed_data)` loop of
`lzw_decompress` (the loop guard itself lives in `lzwLoop`). -/
def lzwStep (data : List Nat) (minCodeSize target : Nat) (s : LzwState) :
    LzwStep :=
  let clearCode := 1 <<< minCodeSize
  let endCode := clearCode + 1
  let bits := fillBits data s.codeSize s.bits
  if bits.bitsInBuffer < s.codeSize then .done s.result
  else
    let currentCode := bits.bitBuffer % (1 <<< s.codeSize)
    let bits : BitState :=
      { bits with bitBuffer := bits.bitBuffer >>> s.codeSize,
                  bitsInBuffer := bits.bitsInBuffer - s.codeSize }
    if currentCode = clearCode then
      .next { codeSize := minCodeSize + 1,
              maxCode := (1 <<< (minCodeSize + 1)) - 1,
              extras := [], bits := bits, oldCode := none, result := s.result }
    else if currentCode = endCode then
      .done s.result
    else
      match s.oldCode with
      | none =>
        let s' : LzwState :=
          if currentCode < clearCode then
            { s with bits := bits, result := s.result ++ [currentCode],
                     oldCode := some currentCode }
          else
            { s with bits := bits }
        if target ≤ s'.result.length then .done s'.result else .next s'
      | some oldCode =>
        let dictSize := lzwDictSize clearCode s.extras
        if currentCode < dictSize then
          match lzwLookup clearCode s.extras currentCode with
          | none => .done s.result  -- KeyError (caught by the `except`)
          | some seq => lzwAfterSeq minCodeSize target s bits currentCode oldCode seq
        else if currentCode = dictSize then
          if oldCode < dictSize then
            match lzwLookup clearCode s.extras oldCode with
            | none => .done s.result
            | some oseq =>
              match oseq.headD 0, oseq with
              | _, [] => .done s.result  -- IndexError on `[0]` of an empty entry
              | c, _ :: _ =>
                lzwAfterSeq minCodeSize target s bits currentCode oldCode (oseq ++ [c])
          else .done s.result
        else .done s.result

/-- The decoding loop, driven by fuel; each Python iteration consumes at least
one bit of the at most `8 * len(data)` input bits, so the fuel passed by
`lzw_decompress` is never exhausted. -/
def lzwLoop (data : List Nat) (minCodeSize target : Nat) :
    Nat → LzwState → List Nat
  | 0, s => s.result
  | fuel + 1, s =>
    if s.bits.bytePos < data.length then
      match lzwStep data minCodeSize target s with
      | .done r => r
      | .next s' => lzwLoop data minCodeSize target fuel s'
    else s.result

/-- The initial loop state of `lzw_decompress`. -/
def lzwInit (minCodeSize : Nat) : LzwState :=
  { codeSize := minCodeSize + 1,
    maxCode := (1 <<< (minCodeSize + 1)) - 1,
    extras := [], bits := ⟨0, 0, 0, 0⟩, oldCode := none, result := [] }

/-- The raw (pre-normalization) output of the decoding loop. -/
def lzwRaw (data : List Nat) (minCodeSize width height : Nat) : List Nat :=
  lzwLoop data minCodeSize (width * height) (8 * data.length + 1)
    (lzwInit minCodeSize)

/-- `GIFParser.lzw_decompress`: decode, then truncate to `width * height`
indices, or pad with the last decoded index (zeros if nothing was decoded). -/
def lzw_decompress (data : List Nat) (minCodeSize width height : Nat) :
    List Nat :=
  if data = [] then []
  else
    let result := lzwRaw data minCodeSize width height
    let expected := width * height
    if expected < result.length then result.take expected
    else if result.length < expected then
      match result.getLast? with
      | some last => result ++ List.replicate (expected - result.length) last
      | none => List.replicate expected 0
    else result

/-! ## Deinterlacing (`GIFParser.deinterlace`) -/

/-- The inner `for col in range(width)` loop of `deinterlace`, with its early
`break` when either pixels or result slots run out. -/
def deintCols (pixels : List Nat) (width row : Nat) :
    Nat → Nat → List Nat → Nat → List Nat × Nat
  | _col, 0, result, pixelIndex => (result, pixelIndex)
  | col, remaining + 1, result, pixelIndex =>
    if pixelIndex < pixels.length ∧ row * width + col < result.length then
      deintCols pixels width row (col + 1) remaining
        (result.set (row * width + col) (pixels.getD pixelIndex 0)) (pixelIndex + 1)
    else (result, pixelIndex)

/-- One interlace pass of `deinterlace`: `while row < height and
pixel_index < len(pixels)` over rows `start, start+step, ...`.  The row index
grows by `step ≥ 2` every iteration, so fuel `height + 1` is never exhausted. -/
def deintRows (pixels : List Nat) (width height step : Nat) :
    Nat → Nat → List Nat → Nat → List Nat × Nat
  | 0, _row, result, pixelIndex => (result, pixelIndex)
  | fuel + 1, row, result, pixelIndex =>
    if row < height ∧ pixelIndex < pixels.length then
      let (result', pixelIndex') := deintCols pixels width row 0 width result pixelIndex
      if pixels.length ≤ pixelIndex' then (result', pixelIndex')
      else deintRows pixels width height step fuel (row + step) result' pixelIndex'
    else (result, pixelIndex)

/-- `GIFParser.deinterlace`: reorders the four GIF interlace passes
(pass start rows 0,4,2,1 with strides 8,8,4,2) into canonical row order. -/
def deinterlace (pixels : List Nat) (width height : Nat) : List Nat :=
  if pixels = [] ∨ width = 0 ∨ height = 0 then
    if pixels = [] then List.replicate (width * height) 0 else pixels
  else
    let expected := width * height
    let pixels :=
      if pixels.length ≠ expected then
        if pixels.length < expected then
          match pixels.getLast? with
          | some last => pixels ++ List.replicate (expected - pixels.length) last
          | none => List.replicate expected 0
        else pixels.take expected
      else pixels
    let r0 := List.replicate expected 0
    let (r1, p1) := deintRows pixels width height 8 (height + 1) 0 r0 0
    let (r2, p2) := deintRows pixels width height 8 (height + 1) 4 r1 p1
    let (r3, p3) := deintRows pixels width height 4 (height + 1) 2 r2 p2
    let (r4, _) := deintRows pixels width height 2 (height + 1) 1 r3 p3
    r4

/-! ## Data model: frames and decoder state -/

/-- A parsed frame descriptor: the dict built by `parse_image_descriptor`
merged with the pending Graphic Control Extension fields (`parse` supplies the
defaults `disposal_method = 0`, no transparency, `delay = 0` when no GCE was
pending).  Parsed frames always carry `left`/`top`. -/
structure FrameData where
  left : Nat
  top : Nat
  width : Nat
  height : Nat
  colorTable : List Color
  lzwData : List Nat
  lzwMinCodeSize : Nat
  interlace : Bool
  disposalMethod : Nat
  transparentColorIndex : Option Nat
  delay : Nat
  deriving DecidableEq, Repr

/-- The mutable fields of a `GIFParser` instance after `parse` has run.
The frame cache dictionary is an association list; only key membership,
`min`/`max` over keys and size are ever consulted, so insertion order is
irrelevant. -/
structure ParserState where
  width : Nat
  height : Nat
  globalColorTable : List Color
  backgroundColorIndex : Nat
  frames : List FrameData
  frameCache : List (Nat × Canvas)
  lastCachedFrame : Int
  maxCacheSize : Nat
  deriving DecidableEq, Repr

/-- `canvas[y][x]` as a total read (out-of-range reads return black; the
source only reads coordinates it has bounds-checked). -/
def pixel2d (cv : Canvas) (y x : Nat) : Color := (cv.getD y []).getD x (0, 0, 0)

/-- `canvas[y][x] = c` as a total write; `List.set` leaves the list unchanged
when the index is out of range (the source only writes coordinates it has
bounds-checked). -/
def set2d (cv : Canvas) (y x : Nat) (c : Color) : Canvas :=
  cv.set y ((cv.getD y []).set x c)

/-- Python deep-copying of a canvas (`copy_canvas`) is the identity on the
value level of this embedding. -/
def copy_canvas (c : Canvas) : Canvas := c

/-- The background color used both when creating a fresh canvas
(`frame_to_rgb`) and when applying disposal method 2 (`get_frame`): the global
color table at `background_color_index` when that table exists and the index
is in range, else black. -/
def backgroundColor (st : ParserState) : Color :=
  if st.globalColorTable ≠ [] ∧
      st.backgroundColorIndex < st.globalColorTable.length then
    st.globalColorTable.getD st.backgroundColorIndex (0, 0, 0)
  else (0, 0, 0)

/-! ## Frame painting (`GIFParser.frame_to_rgb`) -/

/-- The pixel-index normalization `frame_to_rgb` performs on the decompressor
output before painting (pad with the last index, or zeros when empty). -/
def framePixelIndices (fd : FrameData) : List Nat :=
  let pixelIndices :=
    lzw_decompress fd.lzwData fd.lzwMinCodeSize fd.width fd.height
  if pixelIndices.length < fd.width * fd.height then
    match pixelIndices.getLast? with
    | some last =>
      pixelIndices ++
        List.replicate (fd.width * fd.height - pixelIndices.length) last
    | none => List.replicate (fd.width * fd.height) 0
  else pixelIndices

/-- The painting double loop of `frame_to_rgb`: for each in-range pixel of the
frame rectangle, skip transparent indices, bounds-check the index against the
color table, and write the color at `(top + y, left + x)`. -/
def paintFrame (fd : FrameData) (pixelIndices : List Nat) (canvas : Canvas) :
    Canvas :=
  let canvasHeight := canvas.length
  let canvasWidth := match canvas with | [] => 0 | r :: _ => r.length
  (List.range fd.height).foldl (fun cv y =>
    let canvasY := fd.top + y
    if canvasY < canvasHeight then
      (List.range fd.width).foldl (fun cv x =>
        let canvasX := fd.left + x
        if canvasX < canvasWidth then
          let idx := y * fd.width + x
          if idx < pixelIndices.length then
            let index := pixelIndices.getD idx 0
            if fd.transparentColorIndex = some index then cv
            else if index < fd.colorTable.length then
              set2d cv canvasY canvasX (fd.colorTable.getD index (0, 0, 0))
            else cv
          else cv
        else cv) cv
    else cv) canvas

/-- `GIFParser.frame_to_rgb` for parsed frames (which always carry
`left`/`top`, so a freshly created canvas always has the header dimensions):
create the background canvas when none is given, return it unchanged when the
frame has no color table, else decompress, optionally deinterlace, and paint. -/
def frame_to_rgb (st : ParserState) (fd : FrameData) (canvas? : Option Canvas) :
    Canvas :=
  let canvas :=
    match canvas? with
    | some c => c
    | none => List.replicate st.height (List.replicate st.width (backgroundColor st))
  if fd.colorTable = [] then canvas
  else
    let pixelIndices := framePixelIndices fd
    let pixelIndices :=
      if fd.interlace then deinterlace pixelIndices fd.width fd.height
      else pixelIndices
    paintFrame fd pixelIndices canvas

/-! ## Frame cache and `GIFParser.get_frame` -/

/-- `frame_index in self._frame_cache` / `self._frame_cache[frame_index]`. -/
def cacheLookup (m : List (Nat × Canvas)) (k : Nat) : Option Canvas :=
  (m.find? (fun e => e.1 == k)).map (·.2)

/-- `self._frame_cache[k] = v` (dictionary assignment). -/
def cacheInsert (m : List (Nat × Canvas)) (k : Nat) (v : Canvas) :
    List (Nat × Canvas) :=
  (k, v) :: m.filter (fun e => e.1 != k)

/-- `del self._frame_cache[k]`. -/
def cacheErase (m : List (Nat × Canvas)) (k : Nat) : List (Nat × Canvas) :=
  m.filter (fun e => e.1 != k)

/-- The key set of the cache dictionary. -/
def cacheKeys (m : List (Nat × Canvas)) : List Nat := m.map (·.1)

/-- `min(self._frame_cache.keys())` (`none` on an empty dictionary). -/
def cacheMinKey (m : List (Nat × Canvas)) : Option Nat :=
  m.foldl (fun acc e =>
    match acc with
    | none => some e.1
    | some b => some (min b e.1)) none

/-- `max(self._frame_cache.keys())` (`none` on an empty dictionary). -/
def cacheMaxKey (m : List (Nat × Canvas)) : Option Nat :=
  m.foldl (fun acc e =>
    match acc with
    | none => some e.1
    | some b => some (max b e.1)) none

/-- The first key below `idx` in `sorted(keys, reverse=True)` order, i.e. the
greatest cached index strictly below `idx`. -/
def cacheMaxBelow (m : List (Nat × Canvas)) (idx : Nat) : Option Nat :=
  m.foldl (fun acc e =>
    if e.1 < idx then
      match acc with
      | none => some e.1
      | some b => some (max b e.1)
    else acc) none

/-- A placeholder frame; `frames[i]` is only ever read at indices the source
has bounds-checked, so the default is never observable. -/
def defaultFrame : FrameData :=
  { left := 0, top := 0, width := 0, height := 0, colorTable := [],
    lzwData := [], lzwMinCodeSize := 0, interlace := false,
    disposalMethod := 0, transparentColorIndex := none, delay := 0 }

/-- `self.frames[i]`. -/
def frameAt (st : ParserState) (i : Nat) : FrameData :=
  st.frames.getD i defaultFrame

/-- The disposal-2 double loop of `get_frame`: fill the previous frame's
rectangle, clipped against the header dimensions, with the background color. -/
def fillBackgroundRect (st : ParserState) (prev : FrameData) (canvas : Canvas) :
    Canvas :=
  let bg := backgroundColor st
  (List.range prev.height).foldl (fun cv y =>
    let canvasY := prev.top + y
    if canvasY < st.height then
      (List.range prev.width).foldl (fun cv x =>
        let canvasX := prev.left + x
        if canvasX < st.width then set2d cv canvasY canvasX bg else cv) cv
    else cv) canvas

/-- The disposal-3 double loop of `get_frame`: copy the previous frame's
rectangle, clipped against the header dimensions, back from the saved canvas. -/
def restoreRect (st : ParserState) (prev : FrameData) (savedCanvas : Canvas)
    (canvas : Canvas) : Canvas :=
  (List.range prev.height).foldl (fun cv y =>
    let canvasY := prev.top + y
    if canvasY < st.height then
      (List.range prev.width).foldl (fun cv x =>
        let canvasX := prev.left + x
        if canvasX < st.width then
          set2d cv canvasY canvasX (pixel2d savedCanvas canvasY canvasX)
        else cv) cv
    else cv) canvas

/-- The `if i > 0 and canvas is not None` disposal block of the `get_frame`
replay loop, applying frame `i - 1`'s disposal method to the canvas. -/
def applyPrevDisposal (st : ParserState) (i : Nat) (canvas : Canvas)
    (saved : List (Nat × Canvas)) : Canvas :=
  let prev := frameAt st (i - 1)
  if prev.disposalMethod = 2 then fillBackgroundRect st prev canvas
  else if prev.disposalMethod = 3 then
    match cacheLookup saved (i - 1) with
    | some savedCanvas => restoreRect st prev savedCanvas canvas
    | none => canvas
  else canvas

/-- One iteration of the `for i in range(start_index, frame_index + 1)` loop
of `get_frame`, minus the cache bookkeeping: snapshot the canvas when the
current frame has disposal 3, apply the previous frame's disposal, paint. -/
def replayStep (st : ParserState) (i : Nat) (canvas : Option Canvas)
    (saved : List (Nat × Canvas)) : Canvas × List (Nat × Canvas) :=
  let fd := frameAt st i
  let saved :=
    match canvas with
    | some cv =>
      if fd.disposalMethod = 3 then (i, copy_canvas cv) :: saved else saved
    | none => saved
  let canvas :=
    match canvas with
    | some cv => some (if 0 < i then applyPrevDisposal st i cv saved else cv)
    | none => none
  (frame_to_rgb st fd canvas, saved)

/-- The cache bookkeeping at the bottom of the `get_frame` replay loop:
insert when below capacity or at the requested index, then evict the smallest
cached index when over capacity (updating `_last_cached_frame`). -/
def cacheStep (st : ParserState) (fi i : Nat) (canvas : Canvas)
    (cache : List (Nat × Canvas)) (lastCached : Int) :
    List (Nat × Canvas) × Int :=
  if cache.length < st.maxCacheSize ∨ i = fi then
    let cache := cacheInsert cache i (copy_canvas canvas)
    let lastCached : Int := (i : Int)
    if st.maxCacheSize < cache.length then
      match cacheMinKey cache with
      | some oldest =>
        let cache := cacheErase cache oldest
        let lastCached :=
          if lastCached = (oldest : Int) then
            match cacheMaxKey cache with
            | some m => (m : Int)
            | none => -1
          else lastCached
        (cache, lastCached)
      | none => (cache, lastCached)
    else (cache, lastCached)
  else (cache, lastCached)

/-- The replay loop of `get_frame`, iterating `count` frames starting at
frame `i` (the Python loop runs `i` from `start_index` to `frame_index`). -/
def replayLoop (st : ParserState) (fi : Nat) :
    Nat → Nat → Option Canvas → List (Nat × Canvas) → List (Nat × Canvas) →
    Int → Option Canvas × List (Nat × Canvas) × Int
  | 0, _i, canvas, _saved, cache, lastCached => (canvas, cache, lastCached)
  | count + 1, i, canvas, saved, cache, lastCached =>
    replayLoop st fi count (i + 1)
      (some (replayStep st i canvas saved).1)
      (replayStep st i canvas saved).2
      (cacheStep st fi i (replayStep st i canvas saved).1 cache lastCached).1
      (cacheStep st fi i (replayStep st i canvas saved).1 cache lastCached).2

/-- `GIFParser.get_frame`.  The model takes the post-`parse` state directly
(the `if not self.frames: self.parse()` re-parse of the same file rebuilds the
same frame list, and with an empty frame list the bounds check below returns
`None` on an unchanged empty cache either way). -/
def get_frame (st : ParserState) (frameIndex : Int) :
    Option Canvas × ParserState :=
  if frameIndex < 0 ∨ (st.frames.length : Int) ≤ frameIndex then (none, st)
  else
    let fi := frameIndex.toNat
    match cacheLookup st.frameCache fi with
    | some c => (some (copy_canvas c), st)
    | none =>
      let cachedBeforeIdx := cacheMaxBelow st.frameCache fi
      let cachedBefore : Option Canvas :=
        cachedBeforeIdx.bind (cacheLookup st.frameCache)
      -- `start_index = cached_before_index + 1 if cached_before else 0`:
      -- Python truthiness, so a cached empty canvas restarts from 0.
      let startIndex :=
        match cachedBefore, cachedBeforeIdx with
        | some c, some cbIdx => if c ≠ [] then cbIdx + 1 else 0
        | _, _ => 0
      -- `if cached_before is not None: canvas = self.copy_canvas(...)`
      let canvas0 : Option Canvas := cachedBefore.map copy_canvas
      let result :=
        replayLoop st fi (fi + 1 - startIndex) startIndex canvas0 []
          st.frameCache st.lastCachedFrame
      (result.1,
       { st with frameCache := result.2.1, lastCachedFrame := result.2.2 })

/-- The cache-free composition of the replay loop: processing frames
`i .. i + count - 1` from the given canvas and save-state table.  This is the
canvas-and-saved-states component of `replayLoop`, which never feeds the cache
back into the composition (`replayLoop_fst` below). -/
def composeFrom (st : ParserState) :
    Nat → Nat → Option Canvas → List (Nat × Canvas) →
    Option Canvas × List (Nat × Canvas)
  | 0, _i, canvas, saved => (canvas, saved)
  | count + 1, i, canvas, saved =>
    composeFrom st count (i + 1)
      (some (replayStep st i canvas saved).1)
      (replayStep st i canvas saved).2

/-- The from-scratch composition state just before frame `n` is processed
(canvas and disposal-3 save states after frames `0 .. n - 1`). -/
def composeAux (st : ParserState) (n : Nat) :
    Option Canvas × List (Nat × Canvas) :=
  composeFrom st n 0 none []

/-! ## PNG encoder (`png_writer.py`) -/

/-- `struct.pack('>I', n)`: big-endian 4-byte encoding (the source only packs
values below `2^32`). -/
def be32 (n : Nat) : List Nat :=
  [n / 2 ^ 24 % 256, n / 2 ^ 16 % 256, n / 2 ^ 8 % 256, n % 256]

/-- One round of the CRC32 table construction in `PNGWriter.crc32`:
`crc = (crc >> 1) ^ 0xEDB88320 if crc & 1 else crc >> 1`. -/
def crcStep (c : Nat) : Nat :=
  if c % 2 = 1 then (c / 2) ^^^ 0xEDB88320 else c / 2

/-- `crc_table[i]` of `PNGWriter.crc32`: eight `crcStep` rounds applied
to `i`. -/
def crcTableEntry (i : Nat) : Nat := crcStep^[8] i

/-- `PNGWriter.crc32`: the table-driven CRC32,
`crc = crc_table[(crc ^ byte) & 0xFF] ^ (crc >> 8)` over the data, seeded
`0xFFFFFFFF` and inverted on output. -/
def crc32 (data : List Nat) : Nat :=
  (data.foldl (fun crc b => crcTableEntry ((crc ^^^ b) % 256) ^^^ (crc / 256))
    0xFFFFFFFF) ^^^ 0xFFFFFFFF

/-- Modelled from the spec: the bit-at-a-time ISO 3309 / PNG-spec reflected
CRC32 — polynomial `0xEDB88320`, seed `0xFFFFFFFF`, inverted output — which
folds each data byte into the low bits of the register and runs eight
single-bit rounds.  Reference definition for the refinement half of claim C5;
`crc32_eq_ref` proves the production table-driven `crc32` computes it. -/
def crc32Ref (data : List Nat) : Nat :=
  (data.foldl (fun crc b => crcStep^[8] (crc ^^^ b)) 0xFFFFFFFF) ^^^ 0xFFFFFFFF

/-- `PNGWriter.PNG_SIGNATURE`. -/
def PNG_SIGNATURE : List Nat := [0x89, 0x50, 0x4E, 0x47, 0x0D, 0x0A, 0x1A, 0x0A]

/-- `PNGWriter.create_chunk`: big-endian payload length, type, payload, and
big-endian CRC32 over type + payload. -/
def create_chunk (chunkType chunkData : List Nat) : List Nat :=
  be32 chunkData.length ++ chunkType ++ chunkData ++
    be32 (crc32 (chunkType ++ chunkData))

/-- The ASCII bytes of the chunk type `"IHDR"`. -/
def typeIHDR : List Nat := [0x49, 0x48, 0x44, 0x52]

/-- The ASCII bytes of the chunk type `"IDAT"`. -/
def typeIDAT : List Nat := [0x49, 0x44, 0x41, 0x54]

/-- The ASCII bytes of the chunk type `"IEND"`. -/
def typeIEND : List Nat := [0x49, 0x45, 0x4E, 0x44]

/-- `PNGWriter.create_ihdr_chunk`: width and height big-endian, bit depth 8,
color type 2, compression 0, filter 0, interlace 0. -/
def create_ihdr_chunk (width height : Nat) : List Nat :=
  create_chunk typeIHDR (be32 width ++ be32 height ++ [8, 2, 0, 0, 0])

/-- `PNGWriter.prepare_image_data`: for each row a filter-type byte 0 followed
by the R, G, B bytes of each pixel left to right. -/
def prepare_image_data (rgb : Canvas) (width height : Nat) : List Nat :=
  (List.range height).foldl (fun acc y =>
    (List.range width).foldl (fun acc x =>
      let c := pixel2d rgb y x
      acc ++ [c.1, c.2.1, c.2.2]) (acc ++ [0])) []

/-- `PNGWriter.write` as the byte stream written to the file.  `zlib.compress`
is external library code (the spec's non-goals allow any conforming deflate
compressor), so it enters as an arbitrary byte-producing parameter. -/
def png_write (deflate : List Nat → List Nat) (width height : Nat)
    (rgb : Canvas) : List Nat :=
  PNG_SIGNATURE ++ create_ihdr_chunk width height
    ++ create_chunk typeIDAT (deflate (prepare_image_data rgb width height))
    ++ create_chunk typeIEND []

/-! ## Container parsing (`GIFParser.parse`) -/

/-- The fatal errors `parse` can raise: `EOFError` ("Неожиданный конец файла",
the spec's TruncatedInputError) and `ValueError` (bad signature, the spec's
FormatError; Python's `UnicodeDecodeError` on a non-ASCII signature is a
subclass of `ValueError`). -/
inductive ParseErr where
  | eof
  | badSignature
  deriving DecidableEq, Repr

/-- A sequential cursor over the input bytes (the opened file object). -/
structure Reader where
  data : List Nat
  pos : Nat
  deriving DecidableEq, Repr

/-- `GIFParser.read_byte`. -/
def read_byte (r : Reader) : Except ParseErr (Nat × Reader) :=
  if h : r.pos < r.data.length then
    .ok (r.data.get ⟨r.pos, h⟩, ⟨r.data, r.pos + 1⟩)
  else .error .eof

/-- `GIFParser.read_bytes`. -/
def read_bytes (r : Reader) (count : Nat) :
    Except ParseErr (List Nat × Reader) :=
  if r.pos + count ≤ r.data.length then
    .ok ((r.data.drop r.pos).take count, ⟨r.data, r.pos + count⟩)
  else .error .eof

/-- `GIFParser.read_uint16_le` (`struct.unpack('<H', ...)`). -/
def read_uint16_le (r : Reader) : Except ParseErr (Nat × Reader) := do
  let (bs, r) ← read_bytes r 2
  .ok (bs.getD 0 0 + 256 * bs.getD 1 0, r)

/-- The `for _ in range(2 ** (size + 1))` loop of `read_color_table`. -/
def readColorsAux : Nat → Reader → Except ParseErr (List Color × Reader)
  | 0, r => .ok ([], r)
  | n + 1, r => do
    let (red, r) ← read_byte r
    let (green, r) ← read_byte r
    let (blue, r) ← read_byte r
    let (rest, r) ← readColorsAux n r
    .ok ((red, green, blue) :: rest, r)

/-- `GIFParser.read_color_table`. -/
def read_color_table (r : Reader) (size : Nat) :
    Except ParseErr (List Color × Reader) :=
  readColorsAux (2 ^ (size + 1)) r

/-- The header fields `parse_header` stores on the parser instance. -/
structure HeaderInfo where
  width : Nat
  height : Nat
  globalColorTable : List Color
  backgroundColorIndex : Nat
  deriving DecidableEq, Repr

/-- `GIFParser.parse_header`.  Note the source order: the 3 signature bytes
are read and ASCII-decoded, then the 3 version bytes are read, and only then
is the signature compared against `"GIF"`. -/
def parse_header (r : Reader) : Except ParseErr (HeaderInfo × Reader) := do
  let (sig, r) ← read_bytes r 3
  if ¬ (∀ b ∈ sig, b < 128) then .error .badSignature
  else do
    let (_version, r) ← read_bytes r 3
    if sig ≠ [0x47, 0x49, 0x46] then .error .badSignature
    else do
      let (width, r) ← read_uint16_le r
      let (height, r) ← read_uint16_le r
      let (packed, r) ← read_byte r
      let gctFlag := (packed &&& 0x80) >>> 7
      let gctSize := packed &&& 0x07
      let (bgIdx, r) ← read_byte r
      let (_aspectRatio, r) ← read_byte r
      if gctFlag ≠ 0 then do
        let (tbl, r) ← read_color_table r gctSize
        .ok (⟨width, height, tbl, bgIdx⟩, r)
      else
        .ok (⟨width, height, [], bgIdx⟩, r)

/-- `GIFParser.skip_data_subblocks` (fuelled; every iteration consumes at
least one byte, so the fuel `parse` passes is never exhausted). -/
def skip_data_subblocks : Nat → Reader → Except ParseErr Reader
  | 0, _ => .error .eof
  | fuel + 1, r => do
    let (blockSize, r) ← read_byte r
    if blockSize = 0 then .ok r
    else do
      let (_, r) ← read_bytes r blockSize
      skip_data_subblocks fuel r

/-- The Graphic Control Extension fields buffered for the next frame. -/
structure GceInfo where
  disposalMethod : Nat
  transparentColorIndex : Option Nat
  delay : Nat
  deriving DecidableEq, Repr

/-- `GIFParser.parse_graphic_control_extension`, including the recovery path
for a block length other than 4 (consume and substitute defaults). -/
def parse_graphic_control_extension (r : Reader) :
    Except ParseErr (GceInfo × Reader) := do
  let (blockSize, r) ← read_byte r
  if blockSize ≠ 4 then
    let (_, r) ← read_bytes r blockSize
    let (_, r) ← read_byte r
    .ok (⟨0, none, 0⟩, r)
  else
    let (packed, r) ← read_byte r
    let disposalMethod := (packed &&& 0x1C) >>> 2
    let transparentFlag := packed &&& 0x01
    let (delay, r) ← read_uint16_le r
    if transparentFlag ≠ 0 then
      let (tci, r) ← read_byte r
      let (_, r) ← read_byte r
      .ok (⟨disposalMethod, some tci, delay⟩, r)
    else
      let (_, r) ← read_byte r
      .ok (⟨disposalMethod, none, delay⟩, r)

/-- The sub-block concatenation loop of `parse_image_descriptor` (fuelled;
every iteration consumes at least one byte). -/
def readImageDataAux : Nat → Reader → List Nat →
    Except ParseErr (List Nat × Reader)
  | 0, _, _ => .error .eof
  | fuel + 1, r, acc => do
    let (blockSize, r) ← read_byte r
    if blockSize = 0 then .ok (acc, r)
    else do
      let (chunk, r) ← read_bytes r blockSize
      readImageDataAux fuel r (acc ++ chunk)

/-- `GIFParser.parse_image_descriptor` (the Graphic Control fields are merged
in later by `parse`, exactly as in the source). -/
def parse_image_descriptor (globalTable : List Color) (r : Reader) :
    Except ParseErr (Option FrameData × Reader) := do
  let (separator, r) ← read_byte r
  if separator ≠ 0x2C then .ok (none, r)
  else
    let (left, r) ← read_uint16_le r
    let (top, r) ← read_uint16_le r
    let (width, r) ← read_uint16_le r
    let (height, r) ← read_uint16_le r
    let (packed, r) ← read_byte r
    let localFlag := (packed &&& 0x80) >>> 7
    let interlaceFlag := (packed &&& 0x40) >>> 6
    let localSize := packed &&& 0x07
    let (colorTable, r) ←
      if localFlag ≠ 0 then read_color_table r localSize
      else .ok ((if globalTable ≠ [] then globalTable else []), r)
    let (minCodeSize, r) ← read_byte r
    let (imageData, r) ← readImageDataAux (r.data.length + 1) r []
    .ok (some { left := left, top := top, width := width, height := height,
                colorTable := colorTable, lzwData := imageData,
                lzwMinCodeSize := minCodeSize,
                interlace := interlaceFlag == 1,
                disposalMethod := 0, transparentColorIndex := none,
                delay := 0 }, r)

/-- The extension/image/trailer loop of `GIFParser.parse` (fuelled; every
iteration consumes at least one byte net, so the fuel `parse` passes is never
exhausted).  All non-GCE extension types are skipped identically by
`skip_data_subblocks`, exactly as in the source's `elif` chain. -/
def parseLoop (globalTable : List Color) :
    Nat → Reader → Option GceInfo → List FrameData →
    Except ParseErr (List FrameData)
  | 0, _, _, _ => .error .eof
  | fuel + 1, r, currentGce, frames => do
    let (byte, r) ← read_byte r
    if byte = 0x21 then do
      let (extType, r) ← read_byte r
      if extType = 0xF9 then do
        let (gce, r) ← parse_graphic_control_extension r
        parseLoop globalTable fuel r (some gce) frames
      else do
        let r ← skip_data_subblocks (r.data.length + 1) r
        parseLoop globalTable fuel r currentGce frames
    else if byte = 0x2C then do
      -- `f.seek(f.tell() - 1)` then re-read the separator inside the helper
      let rBack : Reader := ⟨r.data, r.pos - 1⟩
      let (frameData?, r) ← parse_image_descriptor globalTable rBack
      match frameData? with
      | some fd =>
        let fd :=
          match currentGce with
          | some g =>
            { fd with disposalMethod := g.disposalMethod,
                      transparentColorIndex := g.transparentColorIndex,
                      delay := g.delay }
          | none => fd
        parseLoop globalTable fuel r none (frames ++ [fd])
      | none => parseLoop globalTable fuel r currentGce frames
    else if byte = 0x3B then .ok frames
    else parseLoop globalTable fuel r currentGce frames

/-- `GIFParser.parse`: header, then the block loop until the `0x3B` trailer. -/
def parse (data : List Nat) : Except ParseErr (HeaderInfo × List FrameData) := do
  let (header, r) ← parse_header ⟨data, 0⟩
  let frames ← parseLoop header.globalColorTable (data.length + 1) r none []
  .ok (header, frames)

/-! ## Predicates used by the theorems -/

/-- Canvas positions outside the frame's placement rectangle
`[top, top + height) × [left, left + width)`. -/
def outsideFrameRect (fd : FrameData) (y x : Nat) : Prop :=
  y < fd.top ∨ fd.top + fd.height ≤ y ∨ x < fd.left ∨ fd.left + fd.width ≤ x

/-- The painting-safety relation between the canvas passed to `paintFrame` and
its result: identical dimensions, pixels outside the frame rectangle
untouched, and every pixel either untouched or a bounds-checked color-table
entry. -/
def PaintInv (fd : FrameData) (c0 cv : Canvas) : Prop :=
  cv.length = c0.length ∧
  (∀ i, (cv.getD i []).length = (c0.getD i []).length) ∧
  (∀ y x, outsideFrameRect fd y x → pixel2d cv y x = pixel2d c0 y x) ∧
  (∀ y x, pixel2d cv y x = pixel2d c0 y x ∨
    ∃ j, j < fd.colorTable.length ∧
      pixel2d cv y x = fd.colorTable.getD j (0, 0, 0))

/-- A canvas of exactly `H` rows of `W` pixels each. -/
def CanvasDims (H W : Nat) (cv : Canvas) : Prop :=
  cv.length = H ∧ ∀ i, i < H → (cv.getD i []).length = W

/-! ## Concrete example states used by witnesses and counterexamples -/

/-- A 1×1 frame whose empty LZW payload decodes (after padding) to index 0,
painting color `c`. -/
def paintFrame1x1 (c : Color) : FrameData :=
  { defaultFrame with width := 1, height := 1, colorTable := [c] }

/-- A 1×1 frame with an empty color table: `frame_to_rgb` leaves the canvas
unchanged. -/
def noopFrame1x1 : FrameData := { defaultFrame with width := 1, height := 1 }

/-- Three-frame 1×1 GIF: frame 0 paints `(1,1,1)`; frame 1 paints `(2,2,2)`
and carries disposal method 3; frame 2 paints nothing.  Background `(9,9,9)`. -/
def cacheBugState : ParserState :=
  { width := 1, height := 1, globalColorTable := [(9, 9, 9)],
    backgroundColorIndex := 0,
    frames := [paintFrame1x1 (1, 1, 1),
               { paintFrame1x1 (2, 2, 2) with disposalMethod := 3 },
               noopFrame1x1],
    frameCache := [], lastCachedFrame := -1, maxCacheSize := 50 }

/-- Two-frame 1×1 GIF: frame 0 paints `(1,1,1)` and carries disposal method 3;
frame 1 paints nothing.  Background `(9,9,9)`. -/
def frame0Disposal3State : ParserState :=
  { width := 1, height := 1, globalColorTable := [(9, 9, 9)],
    backgroundColorIndex := 0,
    frames := [{ paintFrame1x1 (1, 1, 1) with disposalMethod := 3 },
               noopFrame1x1],
    frameCache := [], lastCachedFrame := -1, maxCacheSize := 50 }

/-- A 51-frame 1×1 GIF of no-op frames with the default cache capacity 50. -/
def evictionState : ParserState :=
  { width := 1, height := 1, globalColorTable := [(9, 9, 9)],
    backgroundColorIndex := 0,
    frames := List.replicate 51 noopFrame1x1,
    frameCache := [], lastCachedFrame := -1, maxCacheSize := 50 }

/-- One-frame 1×1 GIF: frame 0 paints `(1,1,1)`, disposal 0. -/
def simpleState : ParserState :=
  { width := 1, height := 1, globalColorTable := [(9, 9, 9)],
    backgroundColorIndex := 0,
    frames := [paintFrame1x1 (1, 1, 1), noopFrame1x1],
    frameCache := [], lastCachedFrame := -1, maxCacheSize := 50 }

/-! ## Theorems -/

set_option maxRecDepth 40000

/-- `List.getD` after `List.set`: the written value at the written in-range
index, the old value everywhere else. -/
theorem getD_set {α : Type} (l : List α) (i j : Nat) (a d : α) :
    (l.set i a).getD j d = if i = j ∧ i < l.length then a else l.getD j d := by
  rw [List.getD_eq_getElem?_getD, List.getD_eq_getElem?_getD,
    List.getElem?_set]
  by_cases h1 : i = j
  · subst h1
    by_cases h2 : i < l.length
    · simp [h2]
    · have hj : i = i := rfl
      have : l[i]? = none := List.getElem?_eq_none (by omega)
      simp [h2, this]
  · simp [h1, fun h : i = j ∧ i < l.length => h1 h.1]

/-- `set2d` preserves the number of rows. -/
theorem length_set2d (cv : Canvas) (y x : Nat) (c : Color) :
    (set2d cv y x c).length = cv.length := by
  unfold set2d; exact List.length_set ..

/-- `set2d` preserves every row length. -/
theorem rowLength_set2d (cv : Canvas) (y x : Nat) (c : Color) (i : Nat) :
    ((set2d cv y x c).getD i []).length = (cv.getD i []).length := by
  unfold set2d
  rw [getD_set]
  by_cases h : y = i ∧ y < cv.length
  · rw [if_pos h, List.length_set]
    rw [h.1]
  · rw [if_neg h]

/-- A pixel of `set2d cv y x c` is either `c` or the corresponding pixel of
`cv`. -/
theorem pixel2d_set2d (cv : Canvas) (y x : Nat) (c : Color) (y' x' : Nat) :
    pixel2d (set2d cv y x c) y' x' = c ∨
      pixel2d (set2d cv y x c) y' x' = pixel2d cv y' x' := by
  unfold pixel2d set2d
  rw [getD_set]
  by_cases h1 : y = y' ∧ y < cv.length
  · rw [if_pos h1]
    rw [getD_set]
    by_cases h2 : x = x' ∧ x < (cv.getD y []).length
    · rw [if_pos h2]; left; rfl
    · rw [if_neg h2]; right; rw [h1.1]
  · rw [if_neg h1]; right; rfl

/-- A pixel of `set2d cv y x c` at any other position is unchanged. -/
theorem pixel2d_set2d_ne (cv : Canvas) (y x : Nat) (c : Color) (y' x' : Nat)
    (h : y ≠ y' ∨ x ≠ x') :
    pixel2d (set2d cv y x c) y' x' = pixel2d cv y' x' := by
  unfold pixel2d set2d
  rw [getD_set]
  by_cases h1 : y = y' ∧ y < cv.length
  · rw [if_pos h1]
    rw [getD_set]
    have hx : x ≠ x' := by
      rcases h with h | h
      · exact absurd h1.1 h
      · exact h
    rw [if_neg (fun hc => hx hc.1), h1.1]
  · rw [if_neg h1]

/-- `PaintInv` is reflexive. -/
theorem paintInv_refl (fd : FrameData) (c0 : Canvas) : PaintInv fd c0 c0 :=
  ⟨rfl, fun _ => rfl, fun _ _ _ => rfl, fun _ _ => .inl rfl⟩

/-- One bounds-checked table write inside the frame rectangle preserves
`PaintInv`. -/
theorem paintInv_step (fd : FrameData) (c0 cv : Canvas)
    (h : PaintInv fd c0 cv) (y x : Nat) (hy : y < fd.height)
    (hx : x < fd.width) (j : Nat) (hj : j < fd.colorTable.length) :
    PaintInv fd c0
      (set2d cv (fd.top + y) (fd.left + x) (fd.colorTable.getD j (0, 0, 0))) := by
  obtain ⟨hlen, hrow, hout, hpix⟩ := h
  refine ⟨?_, ?_, ?_, ?_⟩
  · rw [length_set2d, hlen]
  · intro i; rw [rowLength_set2d]; exact hrow i
  · intro Y X hYX
    have hne : fd.top + y ≠ Y ∨ fd.left + x ≠ X := by
      rcases hYX with h1 | h1 | h1 | h1
      · left; omega
      · left; omega
      · right; omega
      · right; omega
    rw [pixel2d_set2d_ne _ _ _ _ _ _ hne]
    exact hout Y X hYX
  · intro Y X
    rcases pixel2d_set2d cv (fd.top + y) (fd.left + x)
        (fd.colorTable.getD j (0, 0, 0)) Y X with heq | heq
    · right; exact ⟨j, hj, heq⟩
    · rw [heq]; exact hpix Y X

/-- The full painting double loop of `frame_to_rgb` satisfies `PaintInv`
for every frame descriptor, index list and canvas. -/
theorem paintFrame_inv (fd : FrameData) (pixelIndices : List Nat)
    (canvas : Canvas) :
    PaintInv fd canvas (paintFrame fd pixelIndices canvas) := by
  unfold paintFrame
  refine List.foldlRecOn _ _ _ (paintInv_refl fd canvas) ?_
  intro cv hcv y hy
  dsimp only
  split
  case isFalse => exact hcv
  case isTrue hY =>
    refine List.foldlRecOn _ _ _ hcv ?_
    intro cv' hcv' x hx
    dsimp only
    split
    case isFalse => exact hcv'
    case isTrue hX =>
      split
      case isFalse => exact hcv'
      case isTrue hidx =>
        split
        case isTrue => exact hcv'
        case isFalse =>
          split
          case isFalse => exact hcv'
          case isTrue hj =>
            exact paintInv_step fd canvas cv' hcv' y x
              (List.mem_range.mp hy) (List.mem_range.mp hx) _ hj

/-- Fold preservation with an explicitly supplied invariant. -/
theorem foldl_preserve {α β : Type _} (P : β → Prop) (f : β → α → β)
    (hf : ∀ b a, P b → P (f b a)) :
    ∀ (l : List α) (b : β), P b → P (l.foldl f b)
  | [], _, hb => hb
  | a :: l, b, hb => foldl_preserve P f hf l (f b a) (hf b a hb)

/-- An in-range `set2d` write is observable at the written position. -/
theorem pixel2d_set2d_eq (cv : Canvas) (y x : Nat) (c : Color)
    (hy : y < cv.length) (hx : x < (cv.getD y []).length) :
    pixel2d (set2d cv y x c) y x = c := by
  unfold pixel2d set2d
  rw [getD_set, if_pos ⟨rfl, hy⟩, getD_set, if_pos ⟨rfl, hx⟩]

/-- The row loop shared by the disposal-2 and disposal-3 rectangles preserves
the canvas dimensions. -/
theorem rowFold_dims (W left : Nat) (u : Nat → Color) (Y : Nat) (w : Nat)
    (cv : Canvas) :
    ((List.range w).foldl (fun cv xx =>
        if left + xx < W then set2d cv Y (left + xx) (u (left + xx)) else cv)
      cv).length = cv.length ∧
    (∀ i, (((List.range w).foldl (fun cv xx =>
        if left + xx < W then set2d cv Y (left + xx) (u (left + xx)) else cv)
      cv).getD i []).length = (cv.getD i []).length) := by
  refine foldl_preserve
    (fun b => b.length = cv.length ∧
      ∀ i, (b.getD i []).length = (cv.getD i []).length)
    (fun cv xx =>
      if left + xx < W then set2d cv Y (left + xx) (u (left + xx)) else cv)
    ?_ (List.range w) cv ⟨rfl, fun _ => rfl⟩
  intro b xx hb
  dsimp only
  split
  · exact ⟨by rw [length_set2d, hb.1], fun i => by
      rw [rowLength_set2d]; exact hb.2 i⟩
  · exact hb

/-- Pointwise effect of the row loop: position `(Y, x)` receives `u x` when
`x` lies in the clipped column range, every other position is untouched. -/
theorem rowFold_pixel (W left : Nat) (u : Nat → Color) (Y : Nat) :
    ∀ (w : Nat) (cv : Canvas), Y < cv.length → (cv.getD Y []).length = W →
    ∀ (y x : Nat),
      pixel2d ((List.range w).foldl (fun cv xx =>
          if left + xx < W then set2d cv Y (left + xx) (u (left + xx)) else cv)
        cv) y x =
      if y = Y ∧ left ≤ x ∧ x < left + w ∧ x < W then u x
      else pixel2d cv y x := by
  intro w
  induction w with
  | zero =>
    intro cv hY hrow y x
    rw [List.range_zero, List.foldl_nil, if_neg (by omega)]
  | succ w ih =>
    intro cv hY hrow y x
    rw [List.range_succ, List.foldl_append, List.foldl_cons, List.foldl_nil]
    have hdims := rowFold_dims W left u Y w cv
    set F := (List.range w).foldl (fun cv xx =>
      if left + xx < W then set2d cv Y (left + xx) (u (left + xx)) else cv) cv
      with hF
    by_cases hw : left + w < W
    · rw [if_pos hw]
      by_cases hyx : y = Y ∧ x = left + w
      · rcases hyx with ⟨rfl, rfl⟩
        rw [pixel2d_set2d_eq _ _ _ _ (by omega)
          (by rw [hdims.2, hrow]; exact hw)]
        rw [if_pos ⟨rfl, by omega, by omega, hw⟩]
      · have hne : Y ≠ y ∨ left + w ≠ x := by
          by_cases h1 : y = Y
          · right; intro hc; exact hyx ⟨h1, hc.symm⟩
          · left; exact fun hc => h1 hc.symm
        rw [pixel2d_set2d_ne _ _ _ _ _ _ hne, ih cv hY hrow y x]
        by_cases hc : y = Y ∧ left ≤ x ∧ x < left + w ∧ x < W
        · rw [if_pos hc, if_pos ⟨hc.1, hc.2.1, by omega, hc.2.2.2⟩]
        · rw [if_neg hc, if_neg ?_]
          intro hcc
          have hxne : x ≠ left + w := by
            intro hc2
            rcases hne with h1 | h1
            · exact h1 hcc.1.symm
            · exact h1 hc2.symm
          exact hc ⟨hcc.1, hcc.2.1, by omega, hcc.2.2.2⟩
    · rw [if_neg hw, ih cv hY hrow y x]
      by_cases hc : y = Y ∧ left ≤ x ∧ x < left + w ∧ x < W
      · rw [if_pos hc, if_pos ⟨hc.1, hc.2.1, by omega, hc.2.2.2⟩]
      · rw [if_neg hc, if_neg ?_]
        intro hcc
        exact hc ⟨hcc.1, hcc.2.1, by omega, hcc.2.2.2⟩

/-- The full rectangle loop preserves the canvas dimensions. -/
theorem rectFold_dims (H W top left w : Nat) (v : Nat → Nat → Color)
    (h : Nat) (canvas : Canvas) :
    ((List.range h).foldl (fun cv yy =>
        if top + yy < H then
          (List.range w).foldl (fun cv xx =>
            if left + xx < W then
              set2d cv (top + yy) (left + xx) (v (top + yy) (left + xx))
            else cv) cv
        else cv) canvas).length = canvas.length ∧
    (∀ i, (((List.range h).foldl (fun cv yy =>
        if top + yy < H then
          (List.range w).foldl (fun cv xx =>
            if left + xx < W then
              set2d cv (top + yy) (left + xx) (v (top + yy) (left + xx))
            else cv) cv
        else cv) canvas).getD i []).length = (canvas.getD i []).length) := by
  refine foldl_preserve
    (fun b => b.length = canvas.length ∧
      ∀ i, (b.getD i []).length = (canvas.getD i []).length)
    (fun cv yy =>
      if top + yy < H then
        (List.range w).foldl (fun cv xx =>
          if left + xx < W then
            set2d cv (top + yy) (left + xx) (v (top + yy) (left + xx))
          else cv) cv
      else cv)
    ?_ (List.range h) canvas ⟨rfl, fun _ => rfl⟩
  intro b yy hb
  dsimp only
  split
  · have hd := rowFold_dims W left (fun xx => v (top + yy) xx) (top + yy) w b
    exact ⟨by rw [hd.1, hb.1], fun i => by rw [hd.2 i]; exact hb.2 i⟩
  · exact hb

/-- Pointwise effect of the full rectangle loop: each position inside the
rectangle and inside the `H × W` clip receives `v y x`, everything else is
untouched. -/
theorem rectFold_pixel (H W top left w : Nat) (v : Nat → Nat → Color) :
    ∀ (h : Nat) (canvas : Canvas), canvas.length = H →
    (∀ i, i < H → (canvas.getD i []).length = W) →
    ∀ (y x : Nat),
      pixel2d ((List.range h).foldl (fun cv yy =>
        if top + yy < H then
          (List.range w).foldl (fun cv xx =>
            if left + xx < W then
              set2d cv (top + yy) (left + xx) (v (top + yy) (left + xx))
            else cv) cv
        else cv) canvas) y x =
      if top ≤ y ∧ y < top + h ∧ y < H ∧ left ≤ x ∧ x < left + w ∧ x < W then
        v y x
      else pixel2d canvas y x := by
  intro h
  induction h with
  | zero =>
    intro canvas hlen hrow y x
    rw [List.range_zero, List.foldl_nil, if_neg (by omega)]
  | succ h ih =>
    intro canvas hlen hrow y x
    rw [List.range_succ, List.foldl_append, List.foldl_cons, List.foldl_nil]
    have hdims := rectFold_dims H W top left w v h canvas
    set F := (List.range h).foldl (fun cv yy =>
      if top + yy < H then
        (List.range w).foldl (fun cv xx =>
          if left + xx < W then
            set2d cv (top + yy) (left + xx) (v (top + yy) (left + xx))
          else cv) cv
      else cv) canvas with hFdef
    by_cases hH : top + h < H
    · rw [if_pos hH]
      have hrp := rowFold_pixel W left (fun xx => v (top + h) xx) (top + h) w F
        (by rw [hdims.1, hlen]; exact hH)
        (by rw [hdims.2 (top + h)]; exact hrow _ hH)
        y x
      rw [hrp]
      by_cases hyr : y = top + h ∧ left ≤ x ∧ x < left + w ∧ x < W
      · rw [if_pos hyr, if_pos (by omega), hyr.1]
      · rw [if_neg hyr, ih canvas hlen hrow y x]
        by_cases hc : top ≤ y ∧ y < top + h ∧ y < H ∧ left ≤ x ∧ x < left + w ∧ x < W
        · rw [if_pos hc, if_pos (by omega)]
        · rw [if_neg hc, if_neg ?_]
          intro hcc
          by_cases hyh : y = top + h
          · exact hyr ⟨hyh, hcc.2.2.2.1, hcc.2.2.2.2.1, hcc.2.2.2.2.2⟩
          · exact hc ⟨hcc.1, by omega, hcc.2.2.1, hcc.2.2.2.1, hcc.2.2.2.2.1,
              hcc.2.2.2.2.2⟩
    · rw [if_neg hH, ih canvas hlen hrow y x]
      by_cases hc : top ≤ y ∧ y < top + h ∧ y < H ∧ left ≤ x ∧ x < left + w ∧ x < W
      · rw [if_pos hc, if_pos (by omega)]
      · rw [if_neg hc, if_neg ?_]
        intro hcc
        exact hc ⟨hcc.1, by omega, hcc.2.2.1, hcc.2.2.2.1, hcc.2.2.2.2.1,
          hcc.2.2.2.2.2⟩

/-- C7: frame painting with a caller-supplied canvas is total (the embedding
raises nothing), preserves the canvas dimensions, leaves every pixel outside
the frame's placement rectangle untouched, and changes a pixel only to a
color-table entry whose index passed the bounds check — out-of-range indices
produce no write. -/
theorem C7_paint_safety (st : ParserState) (fd : FrameData) (canvas : Canvas) :
    (frame_to_rgb st fd (some canvas)).length = canvas.length ∧
    (∀ i, ((frame_to_rgb st fd (some canvas)).getD i []).length =
      (canvas.getD i []).length) ∧
    (∀ y x, outsideFrameRect fd y x →
      pixel2d (frame_to_rgb st fd (some canvas)) y x = pixel2d canvas y x) ∧
    (∀ y x, pixel2d (frame_to_rgb st fd (some canvas)) y x =
        pixel2d canvas y x ∨
      ∃ j, j < fd.colorTable.length ∧
        pixel2d (frame_to_rgb st fd (some canvas)) y x =
          fd.colorTable.getD j (0, 0, 0)) := by
  have h : PaintInv fd canvas (frame_to_rgb st fd (some canvas)) := by
    unfold frame_to_rgb
    dsimp only
    split
    case isTrue => exact paintInv_refl fd canvas
    case isFalse => exact paintFrame_inv fd _ canvas
  exact h

/-- C3 counterexample: on the empty compressed byte string the decompressor
returns the empty list, not `width * height = 1` padded indices, so the
claim's universal quantification over every compressed byte string fails. -/
theorem C3_counterexample :
    lzw_decompress [] 2 1 1 = [] ∧ (lzw_decompress [] 2 1 1).length ≠ 1 * 1 := by
  decide

/-- C3 (amended to non-empty input): for every non-empty compressed byte
string the output has exactly `width * height` indices — the raw decoded
indices truncated when too long, padded with the repeated last decoded index
when too short, and all zeros when nothing was decoded. -/
theorem C3_amended (data : List Nat) (minCodeSize width height : Nat)
    (hdata : data ≠ []) :
    (lzw_decompress data minCodeSize width height).length = width * height ∧
    (width * height ≤ (lzwRaw data minCodeSize width height).length →
      lzw_decompress data minCodeSize width height =
        (lzwRaw data minCodeSize width height).take (width * height)) ∧
    ((lzwRaw data minCodeSize width height).length < width * height →
      lzwRaw data minCodeSize width height = [] →
      lzw_decompress data minCodeSize width height =
        List.replicate (width * height) 0) ∧
    ((lzwRaw data minCodeSize width height).length < width * height →
      lzwRaw data minCodeSize width height ≠ [] →
      lzw_decompress data minCodeSize width height =
        lzwRaw data minCodeSize width height ++
          List.replicate
            (width * height - (lzwRaw data minCodeSize width height).length)
            ((lzwRaw data minCodeSize width height).getLast?.getD 0)) := by
  unfold lzw_decompress
  rw [if_neg hdata]
  set raw := lzwRaw data minCodeSize width height with hraw
  rcases Nat.lt_trichotomy raw.length (width * height) with hlt | heq | hgt
  · -- decoded too short: padding
    rw [if_neg (by omega), if_pos hlt]
    cases h3 : raw.getLast? with
    | none =>
      have hrawnil : raw = [] := List.getLast?_eq_none_iff.mp h3
      refine ⟨by rw [List.length_replicate], ?_, ?_, ?_⟩
      · intro hle; omega
      · intro _ _; rfl
      · intro _ hne; exact absurd hrawnil hne
    | some last =>
      have hrawne : raw ≠ [] := by
        intro hc; rw [hc] at h3; simp at h3
      refine ⟨?_, ?_, ?_, ?_⟩
      · rw [List.length_append, List.length_replicate]; omega
      · intro hle; omega
      · intro _ hnil; exact absurd hnil hrawne
      · intro _ _; rfl
  · -- exact length: unchanged
    rw [if_neg (by omega), if_neg (by omega)]
    refine ⟨heq, ?_, ?_, ?_⟩
    · intro _; exact (List.take_of_length_le (by omega)).symm
    · intro h _; omega
    · intro h _; omega
  · -- decoded too long: truncation
    rw [if_pos hgt]
    refine ⟨?_, ?_, ?_, ?_⟩
    · rw [List.length_take]; omega
    · intro _; rfl
    · intro h _; omega
    · intro h _; omega

/-- C3 witness: the amended theorem applied at a concrete non-empty input. -/
theorem C3_amended_witness :
    ([143, 0] : List Nat) ≠ [] ∧
    (lzw_decompress [143, 0] 2 4 1).length = 4 * 1 :=
  ⟨by decide, (C3_amended [143, 0] 2 4 1 (by decide)).1⟩

/-- C4 counterexample: with `min_code_size = 2` the first code of the stream
`[143, 0]` is `7`, strictly greater than the dictionary size `6`, yet — the
first branch, `old_code is None`, merely skips such codes — the step does not
stop with the empty decoded-so-far result, and the final output `[1, 2, 0, 0]`
shows the subsequent codes were decoded (an immediate stop would have
produced the zero-filled `[0, 0, 0, 0]`). -/
theorem C4_counterexample :
    (fillBits [143, 0] (lzwInit 2).codeSize (lzwInit 2).bits).bitBuffer %
        (1 <<< (lzwInit 2).codeSize) = 7 ∧
    lzwDictSize (1 <<< 2) (lzwInit 2).extras = 6 ∧
    (lzwInit 2).oldCode = none ∧
    lzwStep [143, 0] 2 4 (lzwInit 2) ≠ .done [] ∧
    lzw_decompress [143, 0] 2 4 1 = [1, 2, 0, 0] ∧
    ([1, 2, 0, 0] : List Nat) ≠ List.replicate 4 0 := by
  decide

/-- C4 (amended to the `old_code` ≠ `None` case, the only one where the
source stops): once a previous code is held, a code strictly greater than the
current dictionary size — or equal to it while `old_code` is itself out of
range — makes the decoding loop stop at once, returning the indices decoded
so far (which `lzw_decompress` then normalizes); when `old_code` is `None`
such codes are skipped instead, and no exception escapes in either case. -/
theorem C4_amended (data : List Nat) (minCodeSize target : Nat) (s : LzwState)
    (oc : Nat) (hold : s.oldCode = some oc)
    (hbits : ¬ (fillBits data s.codeSize s.bits).bitsInBuffer < s.codeSize)
    (hbad :
      lzwDictSize (1 <<< minCodeSize) s.extras <
          (fillBits data s.codeSize s.bits).bitBuffer % (1 <<< s.codeSize) ∨
        ((fillBits data s.codeSize s.bits).bitBuffer % (1 <<< s.codeSize) =
            lzwDictSize (1 <<< minCodeSize) s.extras ∧
          lzwDictSize (1 <<< minCodeSize) s.extras ≤ oc)) :
    lzwStep data minCodeSize target s = .done s.result := by
  have hdict : 1 <<< minCodeSize + 2 ≤ lzwDictSize (1 <<< minCodeSize) s.extras := by
    unfold lzwDictSize; omega
  unfold lzwStep
  simp only [if_neg hbits, hold]
  set code := (fillBits data s.codeSize s.bits).bitBuffer % (1 <<< s.codeSize)
    with hcode
  have hclear : code ≠ 1 <<< minCodeSize := by omega
  have hend : code ≠ 1 <<< minCodeSize + 1 := by omega
  rw [if_neg hclear, if_neg hend]
  rcases hbad with hgt | ⟨heq, hoc⟩
  · rw [if_neg (by omega), if_neg (by omega)]
  · rw [if_neg (by omega), if_pos heq, if_neg (by omega)]

/-- C4 witness: the amended theorem applied at a concrete state (code `7`
extracted from the byte `0xFF` with dictionary size `6` and `old_code = 6`). -/
theorem C4_amended_witness :
    lzwStep [255] 2 1 { lzwInit 2 with oldCode := some 6 } =
      .done (lzwInit 2).result :=
  C4_amended [255] 2 1 { lzwInit 2 with oldCode := some 6 } 6
    (by decide) (by decide) (by decide)

/-- C9: a negative index or an index at or beyond the frame count makes
`get_frame` return the absent result `None` (and, the embedding being total,
no exception is raised). -/
theorem C9_out_of_range (st : ParserState) (frameIndex : Int)
    (h : frameIndex < 0 ∨ (st.frames.length : Int) ≤ frameIndex) :
    (get_frame st frameIndex).1 = none := by
  unfold get_frame
  rw [if_pos h]

/-- C9 witness: both `get_frame(-1)` and `get_frame(frameCount)` on a concrete
one-frame state. -/
theorem C9_out_of_range_witness :
    (get_frame
      { width := 1, height := 1, globalColorTable := [], backgroundColorIndex := 0,
        frames := [defaultFrame], frameCache := [], lastCachedFrame := -1,
        maxCacheSize := 50 } (-1)).1 = none ∧
    (get_frame
      { width := 1, height := 1, globalColorTable := [], backgroundColorIndex := 0,
        frames := [defaultFrame], frameCache := [], lastCachedFrame := -1,
        maxCacheSize := 50 } 1).1 = none :=
  ⟨C9_out_of_range _ _ (by decide), C9_out_of_range _ _ (by decide)⟩

/-- C10: the decompressor returns the empty list on empty input — the
pad-to-`width * height` rule is skipped on that path — for every minimum code
size and dimensions, and `frame_to_rgb` compensates: its own padding step
turns that empty index list into `width * height` zero indices before
painting. -/
theorem C10_empty_input (minCodeSize width height : Nat) (fd : FrameData) :
    lzw_decompress [] minCodeSize width height = [] ∧
    (fd.lzwData = [] →
      framePixelIndices fd = List.replicate (fd.width * fd.height) 0) := by
  constructor
  · simp [lzw_decompress]
  · intro hempty
    unfold framePixelIndices
    rw [hempty]
    have h0 : lzw_decompress [] fd.lzwMinCodeSize fd.width fd.height = [] := by
      simp [lzw_decompress]
    rw [h0]
    simp only [List.length_nil, List.getLast?_nil]
    by_cases h : 0 < fd.width * fd.height
    · rw [if_pos h]
    · rw [if_neg h]
      have h1 : fd.width * fd.height = 0 := by omega
      rw [h1]
      rfl

/-- C10 witness: the theorem applied at a concrete frame with empty LZW
payload. -/
theorem C10_empty_input_witness :
    framePixelIndices { defaultFrame with width := 2, height := 2 } =
      List.replicate (2 * 2) 0 := by
  have h := (C10_empty_input 0 0 0 { defaultFrame with width := 2, height := 2 }).2
  exact h rfl

/-- Pointwise characterization of the disposal-2 loop: the previous frame's
rectangle, clipped to the header dimensions, is filled with the background
color; everything else is untouched. -/
theorem fillBackgroundRect_pixel (st : ParserState) (prev : FrameData)
    (canvas : Canvas) (hdims : CanvasDims st.height st.width canvas)
    (y x : Nat) :
    pixel2d (fillBackgroundRect st prev canvas) y x =
      if prev.top ≤ y ∧ y < prev.top + prev.height ∧ y < st.height ∧
          prev.left ≤ x ∧ x < prev.left + prev.width ∧ x < st.width then
        backgroundColor st
      else pixel2d canvas y x := by
  unfold fillBackgroundRect
  exact rectFold_pixel st.height st.width prev.top prev.left prev.width
    (fun _ _ => backgroundColor st) prev.height canvas hdims.1 hdims.2 y x

/-- Pointwise characterization of the disposal-3 loop: the previous frame's
rectangle, clipped to the header dimensions, is copied back from the saved
canvas; everything else is untouched. -/
theorem restoreRect_pixel (st : ParserState) (prev : FrameData)
    (savedCanvas canvas : Canvas)
    (hdims : CanvasDims st.height st.width canvas) (y x : Nat) :
    pixel2d (restoreRect st prev savedCanvas canvas) y x =
      if prev.top ≤ y ∧ y < prev.top + prev.height ∧ y < st.height ∧
          prev.left ≤ x ∧ x < prev.left + prev.width ∧ x < st.width then
        pixel2d savedCanvas y x
      else pixel2d canvas y x := by
  unfold restoreRect
  exact rectFold_pixel st.height st.width prev.top prev.left prev.width
    (fun yy xx => pixel2d savedCanvas yy xx) prev.height canvas
    hdims.1 hdims.2 y x

/-- The disposal-2 loop preserves canvas dimensions. -/
theorem fillBackgroundRect_dims (st : ParserState) (prev : FrameData)
    (canvas : Canvas) :
    (fillBackgroundRect st prev canvas).length = canvas.length ∧
    ∀ i, ((fillBackgroundRect st prev canvas).getD i []).length =
      (canvas.getD i []).length := by
  unfold fillBackgroundRect
  exact rectFold_dims st.height st.width prev.top prev.left prev.width
    (fun _ _ => backgroundColor st) prev.height canvas

/-- The disposal-3 loop preserves canvas dimensions. -/
theorem restoreRect_dims (st : ParserState) (prev : FrameData)
    (savedCanvas canvas : Canvas) :
    (restoreRect st prev savedCanvas canvas).length = canvas.length ∧
    ∀ i, ((restoreRect st prev savedCanvas canvas).getD i []).length =
      (canvas.getD i []).length := by
  unfold restoreRect
  exact rectFold_dims st.height st.width prev.top prev.left prev.width
    (fun yy xx => pixel2d savedCanvas yy xx) prev.height canvas

/-- Applying the previous frame's disposal preserves canvas dimensions. -/
theorem applyPrevDisposal_dims (st : ParserState) (i : Nat) (cv : Canvas)
    (saved : List (Nat × Canvas)) (H W : Nat) (hd : CanvasDims H W cv) :
    CanvasDims H W (applyPrevDisposal st i cv saved) := by
  simp only [applyPrevDisposal]
  by_cases h2 : (frameAt st (i - 1)).disposalMethod = 2
  · rw [if_pos h2]
    have hf := fillBackgroundRect_dims st (frameAt st (i - 1)) cv
    exact ⟨by rw [hf.1, hd.1], fun j hj => by rw [hf.2 j]; exact hd.2 j hj⟩
  · rw [if_neg h2]
    by_cases h3 : (frameAt st (i - 1)).disposalMethod = 3
    · rw [if_pos h3]
      cases hL : cacheLookup saved (i - 1) with
      | none => exact hd
      | some savedCanvas =>
        have hr := restoreRect_dims st (frameAt st (i - 1)) savedCanvas cv
        exact ⟨by rw [hr.1, hd.1], fun j hj => by rw [hr.2 j]; exact hd.2 j hj⟩
    · rw [if_neg h3]
      exact hd

/-- `frame_to_rgb` with a caller-supplied canvas preserves its dimensions. -/
theorem frame_to_rgb_dims_some (st : ParserState) (fd : FrameData)
    (c : Canvas) (H W : Nat) (hd : CanvasDims H W c) :
    CanvasDims H W (frame_to_rgb st fd (some c)) := by
  have hp : PaintInv fd c (frame_to_rgb st fd (some c)) := by
    unfold frame_to_rgb
    dsimp only
    split
    · exact paintInv_refl fd c
    · exact paintFrame_inv fd _ c
  exact ⟨by rw [hp.1, hd.1], fun j hj => by rw [hp.2.1 j]; exact hd.2 j hj⟩

/-- `frame_to_rgb` with no canvas creates (and possibly paints) a canvas of
exactly the header dimensions. -/
theorem frame_to_rgb_dims_none (st : ParserState) (fd : FrameData) :
    CanvasDims st.height st.width (frame_to_rgb st fd none) := by
  have hbase : CanvasDims st.height st.width
      (List.replicate st.height (List.replicate st.width (backgroundColor st))) := by
    refine ⟨List.length_replicate .., fun i hi => ?_⟩
    rw [List.getD_eq_getElem?_getD, List.getElem?_replicate, if_pos hi]
    exact List.length_replicate ..
  have hp : PaintInv fd
      (List.replicate st.height (List.replicate st.width (backgroundColor st)))
      (frame_to_rgb st fd none) := by
    unfold frame_to_rgb
    dsimp only
    split
    · exact paintInv_refl fd _
    · exact paintFrame_inv fd _ _
  exact ⟨by rw [hp.1, hbase.1], fun j hj => by rw [hp.2.1 j]; exact hbase.2 j hj⟩

/-- Unrolling the cache-free composition from the right: processing
`count + 1` frames is processing `count` frames and then one more step. -/
theorem composeFrom_snoc (st : ParserState) :
    ∀ (count i : Nat) (canvas : Option Canvas) (saved : List (Nat × Canvas)),
      composeFrom st (count + 1) i canvas saved =
        (some (replayStep st (i + count)
            (composeFrom st count i canvas saved).1
            (composeFrom st count i canvas saved).2).1,
          (replayStep st (i + count)
            (composeFrom st count i canvas saved).1
            (composeFrom st count i canvas saved).2).2) := by
  intro count
  induction count with
  | zero => intro i cv sv; simp [composeFrom]
  | succ count ih =>
    intro i cv sv
    show composeFrom st (count + 1) (i + 1)
        (some (replayStep st i cv sv).1) (replayStep st i cv sv).2 = _
    rw [ih (i + 1) _ _]
    have hidx : i + 1 + count = i + (count + 1) := by omega
    rw [hidx]
    rfl

/-- Unrolling the from-scratch composition state by one frame. -/
theorem composeAux_succ (st : ParserState) (n : Nat) :
    composeAux st (n + 1) =
      (some (replayStep st n (composeAux st n).1 (composeAux st n).2).1,
        (replayStep st n (composeAux st n).1 (composeAux st n).2).2) := by
  unfold composeAux
  have h := composeFrom_snoc st n 0 none []
  simpa using h

/-- After at least one composition step the canvas exists. -/
theorem composeAux_fst_isSome (st : ParserState) (n : Nat) (h : 1 ≤ n) :
    ∃ cv, (composeAux st n).1 = some cv := by
  cases n with
  | zero => omega
  | succ n => rw [composeAux_succ]; exact ⟨_, rfl⟩

/-- Every canvas produced by the from-scratch composition has exactly the
header dimensions. -/
theorem composeAux_dims (st : ParserState) :
    ∀ (n : Nat) (cv : Canvas), (composeAux st n).1 = some cv →
      CanvasDims st.height st.width cv := by
  intro n
  induction n with
  | zero =>
    intro cv h
    exact absurd h (by simp [composeAux, composeFrom])
  | succ n ih =>
    intro cv h
    rw [composeAux_succ] at h
    cases hC : (composeAux st n).1 with
    | none =>
      rw [hC] at h
      simp only [replayStep, Option.some.injEq] at h
      subst h
      exact frame_to_rgb_dims_none st (frameAt st n)
    | some cv0 =>
      have hd0 := ih cv0 hC
      rw [hC] at h
      simp only [replayStep, Option.some.injEq] at h
      subst h
      by_cases hn : 0 < n
      · rw [if_pos hn]
        exact frame_to_rgb_dims_some st _ _ _ _
          (applyPrevDisposal_dims st n cv0 _ _ _ hd0)
      · rw [if_neg hn]
        exact frame_to_rgb_dims_some st _ _ _ _ hd0

/-- Dictionary lookup after a cons-style insertion. -/
theorem cacheLookup_cons (k : Nat) (v : Canvas) (m : List (Nat × Canvas))
    (j : Nat) :
    cacheLookup ((k, v) :: m) j = if j = k then some v else cacheLookup m j := by
  by_cases h : j = k
  · subst h
    simp [cacheLookup, List.find?_cons]
  · simp [cacheLookup, List.find?_cons, Ne.symm h, h]

/-- Save-state availability in the from-scratch composition: a snapshot for
frame `j` exists exactly when `j ≥ 1` (frame 0 is processed with no canvas
yet, so nothing is saved for it), `j` has been processed, and frame `j`
carries disposal method 3; the snapshot is the canvas at entry of step `j`. -/
theorem composeAux_savedLookup (st : ParserState) :
    ∀ (n j : Nat),
      cacheLookup (composeAux st n).2 j =
        if 1 ≤ j ∧ j < n ∧ (frameAt st j).disposalMethod = 3 then
          (composeAux st j).1
        else none := by
  intro n
  induction n with
  | zero =>
    intro j
    have h0 : (composeAux st 0).2 = [] := rfl
    rw [h0]
    have h1 : cacheLookup [] j = none := rfl
    rw [h1, if_neg ?_]
    rintro ⟨_, h2, _⟩
    omega
  | succ n ih =>
    intro j
    rw [composeAux_succ]
    cases hC : (composeAux st n).1 with
    | none =>
      have hn0 : n = 0 := by
        by_contra hne
        obtain ⟨cv, hcv⟩ := composeAux_fst_isSome st n (by omega)
        rw [hC] at hcv
        exact Option.noConfusion hcv
      subst hn0
      have hstep : (replayStep st 0 none (composeAux st 0).2).2 =
          (composeAux st 0).2 := by
        simp [replayStep]
      dsimp only
      rw [hstep, ih j]
      by_cases hc : 1 ≤ j ∧ j < 0 ∧ (frameAt st j).disposalMethod = 3
      · omega
      · rw [if_neg hc, if_neg ?_]
        rintro ⟨h1, h2, _⟩
        omega
    | some cv0 =>
      have hn1 : 1 ≤ n := by
        by_contra hne
        have hn0 : n = 0 := by omega
        subst hn0
        have : (composeAux st 0).1 = none := rfl
        rw [this] at hC
        exact Option.noConfusion hC
      dsimp only
      have hstep : (replayStep st n (some cv0) (composeAux st n).2).2 =
          if (frameAt st n).disposalMethod = 3 then
            (n, copy_canvas cv0) :: (composeAux st n).2
          else (composeAux st n).2 := by
        simp [replayStep]
      rw [hstep]
      by_cases hdisp : (frameAt st n).disposalMethod = 3
      · rw [if_pos hdisp, cacheLookup_cons]
        by_cases hj : j = n
        · subst hj
          rw [if_pos rfl, if_pos ⟨hn1, by omega, hdisp⟩, hC]
          rfl
        · rw [if_neg hj, ih j]
          by_cases hc : 1 ≤ j ∧ j < n ∧ (frameAt st j).disposalMethod = 3
          · rw [if_pos hc, if_pos ⟨hc.1, by omega, hc.2.2⟩]
          · rw [if_neg hc, if_neg ?_]
            rintro ⟨h1, h2, h3⟩
            exact hc ⟨h1, by omega, h3⟩
      · rw [if_neg hdisp, ih j]
        by_cases hc : 1 ≤ j ∧ j < n ∧ (frameAt st j).disposalMethod = 3
        · rw [if_pos hc, if_pos ⟨hc.1, by omega, hc.2.2⟩]
        · rw [if_neg hc, if_neg ?_]
          rintro ⟨h1, h2, h3⟩
          by_cases hjn : j = n
          · subst hjn; exact hdisp h3
          · exact hc ⟨h1, by omega, h3⟩

/-- C1: the frame cache is not transparent.  On `cacheBugState` (frame 1
carries disposal method 3), a cold `get_frame(2)` restores frame 1's rectangle
from the snapshot saved during the same replay and yields `(1,1,1)`; after a
prior `get_frame(1)` has populated the cache, the replay of `get_frame(2)`
resumes at frame 2 with an empty per-call `saved_states` dictionary, skips the
disposal-3 restore, and yields `(2,2,2)` — pixel-different output for the same
index, contradicting the spec's cache-transparency requirement. -/
theorem C1_cache_transparency_bug :
    (get_frame cacheBugState 2).1 = some [[(1, 1, 1)]] ∧
    (get_frame ((get_frame cacheBugState 1).2) 2).1 = some [[(2, 2, 2)]] ∧
    (get_frame ((get_frame cacheBugState 1).2) 2).1 ≠
      (get_frame cacheBugState 2).1 := by
  decide

/-- C2 counterexample: for `i = 1` the claim fails.  Frame 0 of
`frame0Disposal3State` carries disposal method 3 and paints `(1,1,1)` over the
`(9,9,9)` background; restoring its rectangle from its pre-paint canvas
`[[(9,9,9)]]` would give back `[[(9,9,9)]]`, but `get_frame(1)` returns
`[[(1,1,1)]]`: the source saves no snapshot at step 0 (the canvas is still
`None` there), so frame 0's disposal 3 performs no restore before frame 1. -/
theorem C2_counterexample :
    (frameAt frame0Disposal3State 0).disposalMethod = 3 ∧
    List.replicate frame0Disposal3State.height
        (List.replicate frame0Disposal3State.width
          (backgroundColor frame0Disposal3State)) = [[(9, 9, 9)]] ∧
    restoreRect frame0Disposal3State (frameAt frame0Disposal3State 0)
        [[(9, 9, 9)]] [[(1, 1, 1)]] = [[(9, 9, 9)]] ∧
    (get_frame frame0Disposal3State 1).1 = some [[(1, 1, 1)]] ∧
    some [[((1 : Nat), (1 : Nat), (1 : Nat))]] ≠
      some [[((9 : Nat), (9 : Nat), (9 : Nat))]] := by
  decide

/-- C2 (amended): in the from-scratch composition, the canvas painted by frame
`i ≥ 1` first receives the *previous* frame's disposal: methods other than 2
and 3 leave it untouched; method 2 fills frame `i-1`'s rectangle (clipped to
the header dimensions) with the background color; method 3 with `i ≥ 2`
restores that rectangle from the snapshot saved when frame `i-1` was
processed; and — the amendment — for `i = 1` frame 0 has no snapshot (the
canvas did not exist before step 0), so its disposal 3 leaves the canvas
untouched. -/
theorem C2_amended (st : ParserState) (i : Nat) (hi : 1 ≤ i)
    (cv : Canvas) (saved : List (Nat × Canvas))
    (hcomp : composeAux st i = (some cv, saved)) :
    (replayStep st i (some cv) saved).1 =
      frame_to_rgb st (frameAt st i)
        (some (applyPrevDisposal st i cv
          (if (frameAt st i).disposalMethod = 3 then
            (i, copy_canvas cv) :: saved
          else saved))) ∧
    ((frameAt st (i - 1)).disposalMethod ≠ 2 →
      (frameAt st (i - 1)).disposalMethod ≠ 3 →
      ∀ saved', applyPrevDisposal st i cv saved' = cv) ∧
    ((frameAt st (i - 1)).disposalMethod = 2 →
      ∀ saved' y x,
        pixel2d (applyPrevDisposal st i cv saved') y x =
          if (frameAt st (i - 1)).top ≤ y ∧
              y < (frameAt st (i - 1)).top + (frameAt st (i - 1)).height ∧
              y < st.height ∧
              (frameAt st (i - 1)).left ≤ x ∧
              x < (frameAt st (i - 1)).left + (frameAt st (i - 1)).width ∧
              x < st.width then
            backgroundColor st
          else pixel2d cv y x) ∧
    ((frameAt st (i - 1)).disposalMethod = 3 → 2 ≤ i →
      ∃ snap, (composeAux st (i - 1)).1 = some snap ∧
        cacheLookup saved (i - 1) = some snap ∧
        ∀ saved', cacheLookup saved' (i - 1) = some snap →
          ∀ y x,
            pixel2d (applyPrevDisposal st i cv saved') y x =
              if (frameAt st (i - 1)).top ≤ y ∧
                  y < (frameAt st (i - 1)).top + (frameAt st (i - 1)).height ∧
                  y < st.height ∧
                  (frameAt st (i - 1)).left ≤ x ∧
                  x < (frameAt st (i - 1)).left + (frameAt st (i - 1)).width ∧
                  x < st.width then
                pixel2d snap y x
              else pixel2d cv y x) ∧
    ((frameAt st (i - 1)).disposalMethod = 3 → i = 1 →
      cacheLookup saved 0 = none ∧
      ∀ saved', cacheLookup saved' 0 = none →
        applyPrevDisposal st i cv saved' = cv) := by
  have hfst : (composeAux st i).1 = some cv := by rw [hcomp]
  have hsnd : (composeAux st i).2 = saved := by rw [hcomp]
  have hdims : CanvasDims st.height st.width cv := composeAux_dims st i cv hfst
  refine ⟨?_, ?_, ?_, ?_, ?_⟩
  · simp only [replayStep]
    rw [if_pos (show 0 < i by omega)]
  · intro h2 h3 saved'
    simp only [applyPrevDisposal]
    rw [if_neg h2, if_neg h3]
  · intro h2 saved' y x
    simp only [applyPrevDisposal]
    rw [if_pos h2]
    exact fillBackgroundRect_pixel st _ cv hdims y x
  · intro h3 h2i
    have hsl := composeAux_savedLookup st i (i - 1)
    rw [if_pos ⟨by omega, by omega, h3⟩] at hsl
    obtain ⟨snap, hsnap⟩ := composeAux_fst_isSome st (i - 1) (by omega)
    refine ⟨snap, hsnap, ?_, ?_⟩
    · rw [← hsnd, hsl, hsnap]
    · intro saved' hlook y x
      simp only [applyPrevDisposal]
      rw [if_neg (by omega), if_pos h3, hlook]
      exact restoreRect_pixel st _ snap cv hdims y x
  · intro h3 hieq
    subst hieq
    have h10 : (1 : Nat) - 1 = 0 := rfl
    constructor
    · have hsl := composeAux_savedLookup st 1 0
      rw [if_neg (by rintro ⟨h, _⟩; omega)] at hsl
      rw [← hsnd, hsl]
    · intro saved' hlook
      simp only [applyPrevDisposal]
      rw [if_neg (by rw [h10, h3]; omega), if_pos (by rw [h10]; exact h3)]
      rw [h10, hlook]

/-- C2 witness: the amended theorem applied at a concrete composition state
(frame 0 of `simpleState` has disposal 0, so the canvas passed to frame 1 is
untouched). -/
theorem C2_amended_witness :
    applyPrevDisposal simpleState 1 [[(1, 1, 1)]] [] = [[(1, 1, 1)]] :=
  ((C2_amended simpleState 1 (by decide) [[(1, 1, 1)]] [] (by decide)).2.1
    (by decide) (by decide)) []

/-- C8 counterexample: the requested index can be evicted in the very step
that inserted it.  On the 51-frame `evictionState` (capacity 50),
`get_frame(50)` fills the cache with indices `1..50`; the following
`get_frame(0)` inserts index 0 (the cache being full) and immediately evicts
the numerically smallest key — which is 0 itself — so the requested index is
not cached after the call. -/
theorem C8_counterexample :
    ((get_frame ((get_frame evictionState 50).2) 0).2).frameCache.length = 50 ∧
    cacheLookup
      ((get_frame ((get_frame evictionState 50).2) 0).2).frameCache 0 =
      none := by
  decide

/-- Specification of the `min` fold over cache keys, generalized over the
accumulator. -/
theorem cacheMinKey_fold_spec (m : List (Nat × Canvas)) :
    ∀ (b : Option Nat) (k : Nat),
      m.foldl (fun acc e =>
        match acc with
        | none => some e.1
        | some c => some (min c e.1)) b = some k →
      (k ∈ cacheKeys m ∨ b = some k) ∧
      (∀ j ∈ cacheKeys m, k ≤ j) ∧
      (∀ c, b = some c → k ≤ c) := by
  induction m with
  | nil =>
    intro b k h
    rw [List.foldl_nil] at h
    refine ⟨Or.inr h, ?_, ?_⟩
    · intro j hj
      simp [cacheKeys] at hj
    · intro c hc
      rw [h] at hc
      injection hc with hc
      omega
  | cons a m ih =>
    intro b k h
    rw [List.foldl_cons] at h
    have hkeys : cacheKeys (a :: m) = a.1 :: cacheKeys m := rfl
    cases b with
    | none =>
      obtain ⟨h1, h2, h3⟩ := ih (some a.1) k h
      refine ⟨?_, ?_, ?_⟩
      · left
        rw [hkeys]
        rcases h1 with h1 | h1
        · exact List.mem_cons_of_mem _ h1
        · injection h1 with h1
          rw [h1]
          exact List.mem_cons_self _ _
      · intro j hj
        rw [hkeys] at hj
        rcases List.mem_cons.mp hj with hj | hj
        · rw [hj]; exact h3 a.1 rfl
        · exact h2 j hj
      · intro c hc
        exact Option.noConfusion hc
    | some c0 =>
      obtain ⟨h1, h2, h3⟩ := ih (some (min c0 a.1)) k h
      have hkm : k ≤ min c0 a.1 := h3 _ rfl
      refine ⟨?_, ?_, ?_⟩
      · rcases h1 with h1 | h1
        · left; rw [hkeys]; exact List.mem_cons_of_mem _ h1
        · injection h1 with h1
          rcases Nat.le_total c0 a.1 with hle | hle
          · right
            rw [← h1, Nat.min_eq_left hle]
          · left
            rw [hkeys, ← h1, Nat.min_eq_right hle]
            exact List.mem_cons_self _ _
      · intro j hj
        rw [hkeys] at hj
        rcases List.mem_cons.mp hj with hj | hj
        · rw [hj]
          have := Nat.min_le_right c0 a.1
          omega
        · exact h2 j hj
      · intro c hc
        injection hc with hc
        have := Nat.min_le_left c0 a.1
        omega

/-- `min(cache.keys())` is a cached key and a lower bound on all cached
keys. -/
theorem cacheMinKey_spec (m : List (Nat × Canvas)) (k : Nat)
    (h : cacheMinKey m = some k) :
    k ∈ cacheKeys m ∧ ∀ j ∈ cacheKeys m, k ≤ j := by
  obtain ⟨h1, h2, _⟩ := cacheMinKey_fold_spec m none k h
  rcases h1 with h1 | h1
  · exact ⟨h1, h2⟩
  · exact Option.noConfusion h1

/-- A non-empty cache has a minimum key. -/
theorem cacheMinKey_isSome (m : List (Nat × Canvas)) (h : m ≠ []) :
    ∃ k, cacheMinKey m = some k := by
  have aux : ∀ (l : List (Nat × Canvas)) (c : Nat),
      ∃ k, l.foldl (fun acc e =>
        match acc with
        | none => some e.1
        | some c => some (min c e.1)) (some c) = some k := by
    intro l
    induction l with
    | nil => exact fun c => ⟨c, rfl⟩
    | cons a l ih =>
      intro c
      rw [List.foldl_cons]
      exact ih (min c a.1)
  cases m with
  | nil => exact absurd rfl h
  | cons a m =>
    unfold cacheMinKey
    rw [List.foldl_cons]
    exact aux m a.1

/-- Dictionary insertion grows the cache by at most one entry. -/
theorem cacheInsert_length (m : List (Nat × Canvas)) (k : Nat) (v : Canvas) :
    (cacheInsert m k v).length ≤ m.length + 1 := by
  unfold cacheInsert
  rw [List.length_cons]
  have := List.length_filter_le (fun e : Nat × Canvas => e.1 != k) m
  omega

/-- Erasing a present key strictly shrinks the cache. -/
theorem cacheErase_length_lt (m : List (Nat × Canvas)) (k : Nat)
    (h : k ∈ cacheKeys m) : (cacheErase m k).length < m.length := by
  unfold cacheErase
  rw [List.length_filter_lt_length_iff_exists]
  obtain ⟨e, he, hek⟩ := List.mem_map.mp h
  exact ⟨e, he, by simp [hek]⟩

/-- One pass of the cache bookkeeping keeps the cache at or under capacity. -/
theorem cacheStep_length (st : ParserState) (fi i : Nat) (canvas : Canvas)
    (cache : List (Nat × Canvas)) (lc : Int)
    (h : cache.length ≤ st.maxCacheSize) :
    (cacheStep st fi i canvas cache lc).1.length ≤ st.maxCacheSize := by
  simp only [cacheStep]
  split
  case isFalse => exact h
  case isTrue hins =>
    have hle := cacheInsert_length cache i (copy_canvas canvas)
    split
    case isFalse h2 =>
      dsimp only
      omega
    case isTrue h2 =>
      have hne : cacheInsert cache i (copy_canvas canvas) ≠ [] := by
        intro hc
        rw [hc] at h2
        simp at h2
      obtain ⟨mk, hmk⟩ := cacheMinKey_isSome _ hne
      rw [hmk]
      have hmem := (cacheMinKey_spec _ mk hmk).1
      have hlt := cacheErase_length_lt _ mk hmem
      dsimp only
      omega

/-- The replay loop keeps the cache at or under capacity. -/
theorem replayLoop_cacheLength (st : ParserState) (fi : Nat) :
    ∀ (count i : Nat) (canvas : Option Canvas)
      (saved cache : List (Nat × Canvas)) (lc : Int),
      cache.length ≤ st.maxCacheSize →
      (replayLoop st fi count i canvas saved cache lc).2.1.length ≤
        st.maxCacheSize := by
  intro count
  induction count with
  | zero =>
    intro i cv sv cache lc h
    exact h
  | succ count ih =>
    intro i cv sv cache lc h
    show (replayLoop st fi count (i + 1) _ _ _ _).2.1.length ≤ st.maxCacheSize
    exact ih _ _ _ _ _ (cacheStep_length st fi i _ cache lc h)

/-- C8 (amended): after any `get_frame` call on a state whose cache is within
capacity, the cache still holds at most `maxCacheSize` entries; and whenever
an insertion pushes the cache above capacity, the evicted entry is the one
with the numerically smallest cached index — which, the amendment, may be the
entry just inserted for the requested frame itself when every other cached
index is larger, in which case the requested index is not cached after the
call. -/
theorem C8_amended (st : ParserState) (frameIndex : Int)
    (hcap : st.frameCache.length ≤ st.maxCacheSize) :
    ((get_frame st frameIndex).2).frameCache.length ≤ st.maxCacheSize ∧
    (∀ (fi i : Nat) (canvas : Canvas) (cache : List (Nat × Canvas)) (lc : Int),
      st.maxCacheSize < (cacheInsert cache i (copy_canvas canvas)).length →
      ∃ m, cacheMinKey (cacheInsert cache i (copy_canvas canvas)) = some m ∧
        m ∈ cacheKeys (cacheInsert cache i (copy_canvas canvas)) ∧
        (∀ j ∈ cacheKeys (cacheInsert cache i (copy_canvas canvas)), m ≤ j) ∧
        ((cache.length < st.maxCacheSize ∨ i = fi) →
          (cacheStep st fi i canvas cache lc).1 =
            cacheErase (cacheInsert cache i (copy_canvas canvas)) m)) := by
  constructor
  · simp only [get_frame]
    split
    case isTrue => exact hcap
    case isFalse =>
      cases hcl : cacheLookup st.frameCache frameIndex.toNat with
      | some c =>
        dsimp only
        exact hcap
      | none =>
        dsimp only
        exact replayLoop_cacheLength st _ _ _ _ _ _ _ hcap
  · intro fi i canvas cache lc hover
    have hne : cacheInsert cache i (copy_canvas canvas) ≠ [] := by
      intro hc
      rw [hc] at hover
      simp at hover
    obtain ⟨mk, hmk⟩ := cacheMinKey_isSome _ hne
    obtain ⟨hmem, hmin⟩ := cacheMinKey_spec _ mk hmk
    refine ⟨mk, hmk, hmem, hmin, ?_⟩
    intro hins
    simp only [cacheStep]
    rw [if_pos hins, if_pos hover, hmk]

/-- C8 witness: the amended size bound applied at a concrete call. -/
theorem C8_amended_witness :
    ((get_frame evictionState 0).2).frameCache.length ≤
      evictionState.maxCacheSize :=
  (C8_amended evictionState 0 (by decide)).1

/-- Binary decomposition of XOR via parity and halving. -/
theorem xor_decomp (a b : Nat) :
    a ^^^ b = (a + b) % 2 + 2 * (a / 2 ^^^ b / 2) := by
  conv_lhs => rw [← Nat.mod_add_div (a ^^^ b) 2]
  rw [Nat.xor_mod_two_eq, Nat.xor_div_two]

/-- Adding a multiple of `2^k` to a number below `2^k` is XOR (the bit ranges
are disjoint). -/
theorem two_pow_add_eq_xor :
    ∀ (k a h : Nat), a < 2 ^ k → a + 2 ^ k * h = a ^^^ 2 ^ k * h := by
  intro k
  induction k with
  | zero =>
    intro a h ha
    have ha0 : a = 0 := by omega
    subst ha0
    simp
  | succ k ih =>
    intro a h ha
    rw [xor_decomp]
    have hsplit : 2 ^ (k + 1) * h = 2 * (2 ^ k * h) := by ring
    have h1 : 2 ^ (k + 1) * h / 2 = 2 ^ k * h := by omega
    have h2 : (a + 2 ^ (k + 1) * h) % 2 = a % 2 := by
      rw [hsplit, Nat.add_mul_mod_self_left]
    have h3 : a / 2 < 2 ^ k := by
      have : (2 : Nat) ^ (k + 1) = 2 * 2 ^ k := by ring
      omega
    rw [h2, h1, ← ih (a / 2) h h3]
    omega

/-- The CRC bit round is linear: bits above the low bit pass through. -/
theorem crcStep_linear (a b : Nat) : crcStep (a ^^^ 2 * b) = crcStep a ^^^ b := by
  unfold crcStep
  have hmod : (a ^^^ 2 * b) % 2 = a % 2 := by
    rw [Nat.xor_mod_two_eq, Nat.add_mul_mod_self_left]
  have hdiv : (a ^^^ 2 * b) / 2 = a / 2 ^^^ b := by
    rw [Nat.xor_div_two]
    congr 1
    omega
  rw [hmod, hdiv]
  by_cases h : a % 2 = 1
  · rw [if_pos h, if_pos h, Nat.xor_assoc, Nat.xor_comm b, ← Nat.xor_assoc]
  · rw [if_neg h, if_neg h]

/-- `n` CRC bit rounds split a value into its low `n` bits and the rest. -/
theorem crcStep_iterate_split :
    ∀ (n l h' : Nat), crcStep^[n] (l ^^^ 2 ^ n * h') = crcStep^[n] l ^^^ h' := by
  intro n
  induction n with
  | zero => intro l h'; simp
  | succ n ih =>
    intro l h'
    rw [Function.iterate_succ_apply, Function.iterate_succ_apply]
    have hsplit : 2 ^ (n + 1) * h' = 2 * (2 ^ n * h') := by ring
    rw [hsplit, crcStep_linear l (2 ^ n * h'), ih]

/-- Eight CRC bit rounds on an arbitrary register split into the table value
of the low byte XOR the shifted-out high bits. -/
theorem crcStep_iterate8_split (x : Nat) :
    crcStep^[8] x = crcStep^[8] (x % 256) ^^^ x / 256 := by
  have h28 : (2 : Nat) ^ 8 = 256 := by norm_num
  have hx : x = x % 256 + 256 * (x / 256) := (Nat.mod_add_div x 256).symm
  have key : x % 256 + 256 * (x / 256) = x % 256 ^^^ 256 * (x / 256) := by
    rw [← h28]
    exact two_pow_add_eq_xor 8 _ _ (by rw [h28]; exact Nat.mod_lt _ (by omega))
  conv_lhs => rw [hx, key, ← h28]
  exact crcStep_iterate_split 8 (x % 256) (x / 256)

/-- XOR commutes with division by a power of two. -/
theorem xor_div_two_pow :
    ∀ (k a b : Nat), (a ^^^ b) / 2 ^ k = a / 2 ^ k ^^^ b / 2 ^ k := by
  intro k
  induction k with
  | zero => intro a b; simp
  | succ k ih =>
    intro a b
    have hs : ∀ (x : Nat), x / 2 ^ (k + 1) = x / 2 ^ k / 2 := by
      intro x
      rw [Nat.div_div_eq_div_mul, ← Nat.pow_succ]
    rw [hs, hs, hs, ih, Nat.xor_div_two]

/-- The table-driven per-byte update of `PNGWriter.crc32` equals eight
bit-at-a-time rounds on the register XOR the byte. -/
theorem crc32_byte_step (crc b : Nat) (hb : b < 256) :
    crcTableEntry ((crc ^^^ b) % 256) ^^^ crc / 256 =
      crcStep^[8] (crc ^^^ b) := by
  rw [crcStep_iterate8_split (crc ^^^ b)]
  unfold crcTableEntry
  congr 1
  have h28 : (2 : Nat) ^ 8 = 256 := by norm_num
  have := xor_div_two_pow 8 crc b
  rw [h28] at this
  rw [this, Nat.div_eq_of_lt hb, Nat.xor_zero]

/-- C5 key lemma: on byte data the production table-driven CRC32 computes
exactly the bit-at-a-time ISO 3309 / PNG-spec reflected CRC32. -/
theorem crc32_eq_ref (data : List Nat) (h : ∀ b ∈ data, b < 256) :
    crc32 data = crc32Ref data := by
  unfold crc32 crc32Ref
  congr 1
  have key : ∀ (l : List Nat), (∀ b ∈ l, b < 256) → ∀ (init : Nat),
      l.foldl (fun crc b => crcTableEntry ((crc ^^^ b) % 256) ^^^ crc / 256)
        init =
      l.foldl (fun crc b => crcStep^[8] (crc ^^^ b)) init := by
    intro l
    induction l with
    | nil => intro _ init; rfl
    | cons b l ih =>
      intro hl init
      rw [List.foldl_cons, List.foldl_cons,
        crc32_byte_step init b (hl b (List.mem_cons_self b l)),
        ih (fun c hc => hl c (List.mem_cons_of_mem b hc))]
  exact key data h 0xFFFFFFFF

/-- Every byte emitted by `be32` is below 256. -/
theorem be32_bytes_lt (n : Nat) : ∀ b ∈ be32 n, b < 256 := by
  intro b hb
  simp [be32] at hb
  rcases hb with rfl | rfl | rfl | rfl <;> omega

/-- Byte bounds distribute over concatenation. -/
theorem mem_append_bound {l1 l2 : List Nat} (h1 : ∀ b ∈ l1, b < 256)
    (h2 : ∀ b ∈ l2, b < 256) : ∀ b ∈ l1 ++ l2, b < 256 := by
  intro b hb
  rcases List.mem_append.mp hb with h | h
  · exact h1 b h
  · exact h2 b h

/-- A fold that only appends factors through `flatten ∘ map`. -/
theorem foldl_append_flatten (step : List Nat → Nat → List Nat)
    (G : Nat → List Nat) (hstep : ∀ acc y, step acc y = acc ++ G y) :
    ∀ (l : List Nat) (acc : List Nat),
      l.foldl step acc = acc ++ (l.map G).flatten := by
  intro l
  induction l with
  | nil => intro acc; simp
  | cons a l ih =>
    intro acc
    rw [List.foldl_cons, hstep, ih, List.map_cons, List.flatten_cons,
      List.append_assoc]

/-- The scanline stream of `prepare_image_data`: per row a filter byte 0
followed by the three channel bytes of each pixel, left to right. -/
theorem prepare_image_data_eq (rgb : Canvas) (width height : Nat) :
    prepare_image_data rgb width height =
      ((List.range height).map (fun y =>
        0 :: ((List.range width).map (fun x =>
          [(pixel2d rgb y x).1, (pixel2d rgb y x).2.1,
            (pixel2d rgb y x).2.2])).flatten)).flatten := by
  unfold prepare_image_data
  have hinner : ∀ (y : Nat) (acc : List Nat),
      (List.range width).foldl (fun acc x =>
        acc ++ [(pixel2d rgb y x).1, (pixel2d rgb y x).2.1,
          (pixel2d rgb y x).2.2]) acc =
      acc ++ ((List.range width).map (fun x =>
        [(pixel2d rgb y x).1, (pixel2d rgb y x).2.1,
          (pixel2d rgb y x).2.2])).flatten := by
    intro y acc
    exact foldl_append_flatten _ _ (fun _ _ => rfl) (List.range width) acc
  have houter := foldl_append_flatten
    (fun acc y => (List.range width).foldl (fun acc x =>
      acc ++ [(pixel2d rgb y x).1, (pixel2d rgb y x).2.1,
        (pixel2d rgb y x).2.2]) (acc ++ [0]))
    (fun y => 0 :: ((List.range width).map (fun x =>
      [(pixel2d rgb y x).1, (pixel2d rgb y x).2.1,
        (pixel2d rgb y x).2.2])).flatten)
    (fun acc y => by
      dsimp only
      rw [hinner y (acc ++ [0]), List.append_assoc]
      rfl)
    (List.range height) []
  rw [houter]
  rfl

/-- C5: the PNG writer's output is the 8-byte signature followed by exactly
the chunks IHDR, IDAT, IEND in that order; each chunk is framed as big-endian
payload length, 4-byte type, payload, and a big-endian CRC32 over type plus
payload computed by the reflected-polynomial `0xEDB88320` algorithm seeded
`0xFFFFFFFF` and inverted on output (`crc32Ref`); and each scanline row of the
IDAT input is a filter byte 0 followed by 3 bytes R, G, B per pixel left to
right.  The deflate compressor is external library code and enters as an
arbitrary byte-producing parameter. -/
theorem C5_png_structure (deflate : List Nat → List Nat)
    (width height : Nat) (rgb : Canvas)
    (hdeflate : ∀ b ∈ deflate (prepare_image_data rgb width height), b < 256) :
    png_write deflate width height rgb =
      PNG_SIGNATURE ++
      (be32 13 ++ typeIHDR ++
        (be32 width ++ be32 height ++ [8, 2, 0, 0, 0]) ++
        be32 (crc32Ref (typeIHDR ++
          (be32 width ++ be32 height ++ [8, 2, 0, 0, 0])))) ++
      (be32 (deflate (prepare_image_data rgb width height)).length ++
        typeIDAT ++ deflate (prepare_image_data rgb width height) ++
        be32 (crc32Ref (typeIDAT ++
          deflate (prepare_image_data rgb width height)))) ++
      (be32 0 ++ typeIEND ++ [] ++ be32 (crc32Ref typeIEND)) ∧
    prepare_image_data rgb width height =
      ((List.range height).map (fun y =>
        0 :: ((List.range width).map (fun x =>
          [(pixel2d rgb y x).1, (pixel2d rgb y x).2.1,
            (pixel2d rgb y x).2.2])).flatten)).flatten := by
  constructor
  · have hihdr : ∀ b ∈ typeIHDR ++
        (be32 width ++ be32 height ++ [8, 2, 0, 0, 0]), b < 256 :=
      mem_append_bound (by decide)
        (mem_append_bound
          (mem_append_bound (be32_bytes_lt width) (be32_bytes_lt height))
          (by decide))
    have hidat : ∀ b ∈ typeIDAT ++
        deflate (prepare_image_data rgb width height), b < 256 :=
      mem_append_bound (by decide) hdeflate
    have hiend : ∀ b ∈ typeIEND ++ ([] : List Nat), b < 256 :=
      mem_append_bound (by decide) (by intro b hb; exact absurd hb (by simp))
    simp only [png_write, create_ihdr_chunk, create_chunk]
    rw [crc32_eq_ref _ hihdr, crc32_eq_ref _ hidat, crc32_eq_ref _ hiend]
    rfl
  · exact prepare_image_data_eq rgb width height

/-- C5 witness: the theorem applied with the identity as the (conforming on
this input) compressor on a concrete 1×1 canvas. -/
theorem C5_png_structure_witness :
    png_write id 1 1 [[(10, 20, 30)]] =
      PNG_SIGNATURE ++
      (be32 13 ++ typeIHDR ++ (be32 1 ++ be32 1 ++ [8, 2, 0, 0, 0]) ++
        be32 (crc32Ref (typeIHDR ++ (be32 1 ++ be32 1 ++ [8, 2, 0, 0, 0])))) ++
      (be32 (id (prepare_image_data [[(10, 20, 30)]] 1 1)).length ++
        typeIDAT ++ id (prepare_image_data [[(10, 20, 30)]] 1 1) ++
        be32 (crc32Ref (typeIDAT ++
          id (prepare_image_data [[(10, 20, 30)]] 1 1)))) ++
      (be32 0 ++ typeIEND ++ [] ++ be32 (crc32Ref typeIEND)) :=
  (C5_png_structure id 1 1 [[(10, 20, 30)]] (by decide)).1

/-- Bind on a successful `Except` value. -/
theorem except_bind_ok {α β : Type} (a : α) (f : α → Except ParseErr β) :
    (Except.ok a >>= f) = f a := rfl

/-- Bind on a failed `Except` value. -/
theorem except_bind_error {α β : Type} (e : ParseErr)
    (f : α → Except ParseErr β) :
    ((Except.error e : Except ParseErr α) >>= f) = .error e := rfl

/-- Error propagation through bind preserves "only EOF errors". -/
theorem except_bind_eof {α β : Type} (x : Except ParseErr α)
    (f : α → Except ParseErr β)
    (hx : ∀ e, x = .error e → e = .eof)
    (hf : ∀ a e, f a = .error e → e = .eof) :
    ∀ e, (x >>= f) = .error e → e = .eof := by
  intro e h
  cases x with
  | error err =>
    rw [except_bind_error] at h
    injection h with h2
    exact h2 ▸ hx err rfl
  | ok a =>
    exact hf a e h

/-- `read_byte` fails only with an EOF error. -/
theorem read_byte_err (r : Reader) :
    ∀ e, read_byte r = .error e → e = .eof := by
  intro e h
  unfold read_byte at h
  split at h
  · exact Except.noConfusion h
  · injection h with h2
    exact h2.symm

/-- `read_bytes` fails only with an EOF error. -/
theorem read_bytes_err (r : Reader) (count : Nat) :
    ∀ e, read_bytes r count = .error e → e = .eof := by
  intro e h
  unfold read_bytes at h
  split at h
  · exact Except.noConfusion h
  · injection h with h2
    exact h2.symm

/-- `read_uint16_le` fails only with an EOF error. -/
theorem read_uint16_le_err (r : Reader) :
    ∀ e, read_uint16_le r = .error e → e = .eof := by
  unfold read_uint16_le
  refine except_bind_eof _ _ (read_bytes_err r 2) ?_
  rintro ⟨bs, r'⟩ e h
  exact Except.noConfusion h

/-- The color-table loop fails only with an EOF error. -/
theorem readColorsAux_err :
    ∀ (n : Nat) (r : Reader) (e : ParseErr),
      readColorsAux n r = .error e → e = .eof := by
  intro n
  induction n with
  | zero =>
    intro r e h
    exact Except.noConfusion h
  | succ n ih =>
    intro r e
    unfold readColorsAux
    refine except_bind_eof _ _ (read_byte_err r) ?_ e
    rintro ⟨red, r1⟩ e1
    refine except_bind_eof _ _ (read_byte_err r1) ?_ e1
    rintro ⟨green, r2⟩ e2
    refine except_bind_eof _ _ (read_byte_err r2) ?_ e2
    rintro ⟨blue, r3⟩ e3
    refine except_bind_eof _ _ (ih r3) ?_ e3
    rintro ⟨rest, r4⟩ e4 h4
    exact Except.noConfusion h4

/-- `read_color_table` fails only with an EOF error. -/
theorem read_color_table_err (r : Reader) (size : Nat) :
    ∀ e, read_color_table r size = .error e → e = .eof :=
  readColorsAux_err (2 ^ (size + 1)) r

/-- `skip_data_subblocks` fails only with an EOF error. -/
theorem skip_data_subblocks_err :
    ∀ (fuel : Nat) (r : Reader) (e : ParseErr),
      skip_data_subblocks fuel r = .error e → e = .eof := by
  intro fuel
  induction fuel with
  | zero =>
    intro r e h
    injection h with h2
    exact h2.symm
  | succ fuel ih =>
    intro r e
    unfold skip_data_subblocks
    refine except_bind_eof _ _ (read_byte_err r) ?_ e
    rintro ⟨blockSize, r1⟩ e1
    dsimp only
    split
    · intro h
      exact Except.noConfusion h
    · refine except_bind_eof _ _ (read_bytes_err r1 blockSize) ?_ e1
      rintro ⟨_, r2⟩ e2 h2
      exact ih r2 e2 h2

/-- `parse_graphic_control_extension` fails only with an EOF error. -/
theorem parse_graphic_control_extension_err (r : Reader) :
    ∀ e, parse_graphic_control_extension r = .error e → e = .eof := by
  unfold parse_graphic_control_extension
  refine except_bind_eof _ _ (read_byte_err r) ?_
  rintro ⟨blockSize, r1⟩ e1
  dsimp only
  split
  · refine except_bind_eof _ _ (read_bytes_err r1 blockSize) ?_ e1
    rintro ⟨_, r2⟩ e2
    refine except_bind_eof _ _ (read_byte_err r2) ?_ e2
    rintro ⟨_, r3⟩ e3 h3
    exact Except.noConfusion h3
  · refine except_bind_eof _ _ (read_byte_err r1) ?_ e1
    rintro ⟨packed, r2⟩ e2
    dsimp only
    refine except_bind_eof _ _ (read_uint16_le_err r2) ?_ e2
    rintro ⟨delay, r3⟩ e3
    dsimp only
    split
    · refine except_bind_eof _ _ (read_byte_err r3) ?_ e3
      rintro ⟨tci, r4⟩ e4
      refine except_bind_eof _ _ (read_byte_err r4) ?_ e4
      rintro ⟨_, r5⟩ e5 h5
      exact Except.noConfusion h5
    · refine except_bind_eof _ _ (read_byte_err r3) ?_ e3
      rintro ⟨_, r4⟩ e4 h4
      exact Except.noConfusion h4

/-- The image-data sub-block loop fails only with an EOF error. -/
theorem readImageDataAux_err :
    ∀ (fuel : Nat) (r : Reader) (acc : List Nat) (e : ParseErr),
      readImageDataAux fuel r acc = .error e → e = .eof := by
  intro fuel
  induction fuel with
  | zero =>
    intro r acc e h
    injection h with h2
    exact h2.symm
  | succ fuel ih =>
    intro r acc e
    unfold readImageDataAux
    refine except_bind_eof _ _ (read_byte_err r) ?_ e
    rintro ⟨blockSize, r1⟩ e1
    dsimp only
    split
    · intro h
      exact Except.noConfusion h
    · refine except_bind_eof _ _ (read_bytes_err r1 blockSize) ?_ e1
      rintro ⟨chunk, r2⟩ e2 h2
      exact ih r2 _ e2 h2

/-- `parse_image_descriptor` fails only with an EOF error. -/
theorem parse_image_descriptor_err (globalTable : List Color) (r : Reader) :
    ∀ e, parse_image_descriptor globalTable r = .error e → e = .eof := by
  unfold parse_image_descriptor
  refine except_bind_eof _ _ (read_byte_err r) ?_
  rintro ⟨separator, r1⟩ e1
  dsimp only
  split
  · intro h
    exact Except.noConfusion h
  · refine except_bind_eof _ _ (read_uint16_le_err r1) ?_ e1
    rintro ⟨left, r2⟩ e2
    refine except_bind_eof _ _ (read_uint16_le_err r2) ?_ e2
    rintro ⟨top, r3⟩ e3
    refine except_bind_eof _ _ (read_uint16_le_err r3) ?_ e3
    rintro ⟨width, r4⟩ e4
    refine except_bind_eof _ _ (read_uint16_le_err r4) ?_ e4
    rintro ⟨height, r5⟩ e5
    refine except_bind_eof _ _ (read_byte_err r5) ?_ e5
    rintro ⟨packed, r6⟩ e6
    dsimp only
    split
    · refine except_bind_eof _ _ (read_color_table_err r6 _) ?_ e6
      rintro ⟨colorTable, r7⟩ e7
      refine except_bind_eof _ _ (read_byte_err r7) ?_ e7
      rintro ⟨minCodeSize, r8⟩ e8
      refine except_bind_eof _ _ (readImageDataAux_err _ _ []) ?_ e8
      rintro ⟨imageData, r9⟩ e9 h9
      exact Except.noConfusion h9
    · refine except_bind_eof _ _ (fun e h => Except.noConfusion h) ?_ e6
      rintro ⟨colorTable, r7⟩ e7
      refine except_bind_eof _ _ (read_byte_err r7) ?_ e7
      rintro ⟨minCodeSize, r8⟩ e8
      refine except_bind_eof _ _ (readImageDataAux_err _ _ []) ?_ e8
      rintro ⟨imageData, r9⟩ e9 h9
      exact Except.noConfusion h9

/-- The block loop of `parse` fails only with an EOF error. -/
theorem parseLoop_err (globalTable : List Color) :
    ∀ (fuel : Nat) (r : Reader) (gce : Option GceInfo)
      (frames : List FrameData) (e : ParseErr),
      parseLoop globalTable fuel r gce frames = .error e → e = .eof := by
  intro fuel
  induction fuel with
  | zero =>
    intro r gce frames e h
    injection h with h2
    exact h2.symm
  | succ fuel ih =>
    intro r gce frames e
    unfold parseLoop
    refine except_bind_eof _ _ (read_byte_err r) ?_ e
    rintro ⟨byte, r1⟩ e1
    dsimp only
    split
    · refine except_bind_eof _ _ (read_byte_err r1) ?_ e1
      rintro ⟨extType, r2⟩ e2
      dsimp only
      split
      · refine except_bind_eof _ _ (parse_graphic_control_extension_err r2) ?_ e2
        rintro ⟨gce2, r3⟩ e3 h3
        exact ih r3 _ _ e3 h3
      · refine except_bind_eof _ _ (skip_data_subblocks_err _ r2) ?_ e2
        rintro r3 e3 h3
        exact ih r3 _ _ e3 h3
    · split
      · refine except_bind_eof _ _
          (parse_image_descriptor_err globalTable ⟨r1.data, r1.pos - 1⟩) ?_ e1
        rintro ⟨frameData?, r2⟩ e2
        dsimp only
        cases frameData? with
        | some fd =>
          intro h2
          exact ih r2 _ _ e2 h2
        | none =>
          intro h2
          exact ih r2 _ _ e2 h2
      · split
        · intro h
          exact Except.noConfusion h
        · intro h
          exact ih r1 _ _ e1 h

/-- When `parse_header` raises the `ValueError` (FormatError): exactly when
the 3 signature bytes are present and either fail ASCII decoding (a byte at or
above 128), or — the 3 version bytes also being present, since the source
reads them before comparing — decode to something other than `"GIF"`. -/
theorem parse_header_badsig (data : List Nat) :
    parse_header ⟨data, 0⟩ = .error .badSignature ↔
      (3 ≤ data.length ∧
        ((∃ b ∈ data.take 3, 128 ≤ b) ∨
          (6 ≤ data.length ∧ (∀ b ∈ data.take 3, b < 128) ∧
            data.take 3 ≠ [71, 73, 70]))) := by
  unfold parse_header
  by_cases h3 : 3 ≤ data.length
  case neg =>
    have hrb : read_bytes ⟨data, 0⟩ 3 = .error .eof := by
      unfold read_bytes
      rw [if_neg (by simp; omega)]
    rw [hrb, except_bind_error]
    constructor
    · intro h
      injection h with h2
      exact ParseErr.noConfusion h2
    · rintro ⟨h1, _⟩
      omega
  case pos =>
    have hrb : read_bytes ⟨data, 0⟩ 3 = .ok (data.take 3, ⟨data, 3⟩) := by
      unfold read_bytes
      rw [if_pos (by show 0 + 3 ≤ data.length; omega)]
      rw [List.drop_zero]
    rw [hrb, except_bind_ok]
    dsimp only
    by_cases hascii : ∀ b ∈ data.take 3, b < 128
    case neg =>
      rw [if_pos hascii]
      constructor
      · intro _
        refine ⟨h3, Or.inl ?_⟩
        push_neg at hascii
        obtain ⟨b, hb, hb2⟩ := hascii
        exact ⟨b, hb, by omega⟩
      · intro _
        rfl
    case pos =>
      rw [if_neg (by simpa using hascii)]
      by_cases h6 : 6 ≤ data.length
      case neg =>
        have hrb2 : read_bytes ⟨data, 3⟩ 3 = .error .eof := by
          unfold read_bytes
          rw [if_neg (by simp; omega)]
        rw [hrb2, except_bind_error]
        constructor
        · intro h
          injection h with h2
          exact ParseErr.noConfusion h2
        · rintro ⟨_, h | ⟨h61, _⟩⟩
          · obtain ⟨b, hb, hb2⟩ := h
            have := hascii b hb
            omega
          · omega
      case pos =>
        have hrb2 : read_bytes ⟨data, 3⟩ 3 =
            .ok ((data.drop 3).take 3, ⟨data, 6⟩) := by
          unfold read_bytes
          rw [if_pos (by show 3 + 3 ≤ data.length; omega)]
        rw [hrb2, except_bind_ok]
        dsimp only
        by_cases hsig : data.take 3 ≠ [71, 73, 70]
        case pos =>
          rw [if_pos hsig]
          constructor
          · intro _
            exact ⟨h3, Or.inr ⟨h6, hascii, hsig⟩⟩
          · intro _
            rfl
        case neg =>
          rw [if_neg hsig]
          push_neg at hsig
          constructor
          · intro h
            exfalso
            cases hw1 : read_uint16_le (⟨data, 6⟩ : Reader) with
            | error e1 =>
              rw [hw1, except_bind_error] at h
              injection h with h2
              rw [read_uint16_le_err _ e1 hw1] at h2
              exact ParseErr.noConfusion h2
            | ok p1 =>
              obtain ⟨width, r1⟩ := p1
              rw [hw1, except_bind_ok] at h
              dsimp only at h
              cases hw2 : read_uint16_le r1 with
              | error e2 =>
                rw [hw2, except_bind_error] at h
                injection h with h2
                rw [read_uint16_le_err _ e2 hw2] at h2
                exact ParseErr.noConfusion h2
              | ok p2 =>
                obtain ⟨height, r2⟩ := p2
                rw [hw2, except_bind_ok] at h
                dsimp only at h
                cases hw3 : read_byte r2 with
                | error e3 =>
                  rw [hw3, except_bind_error] at h
                  injection h with h2
                  rw [read_byte_err _ e3 hw3] at h2
                  exact ParseErr.noConfusion h2
                | ok p3 =>
                  obtain ⟨packed, r3⟩ := p3
                  rw [hw3, except_bind_ok] at h
                  dsimp only at h
                  cases hw4 : read_byte r3 with
                  | error e4 =>
                    rw [hw4, except_bind_error] at h
                    injection h with h2
                    rw [read_byte_err _ e4 hw4] at h2
                    exact ParseErr.noConfusion h2
                  | ok p4 =>
                    obtain ⟨bgIdx, r4⟩ := p4
                    rw [hw4, except_bind_ok] at h
                    dsimp only at h
                    cases hw5 : read_byte r4 with
                    | error e5 =>
                      rw [hw5, except_bind_error] at h
                      injection h with h2
                      rw [read_byte_err _ e5 hw5] at h2
                      exact ParseErr.noConfusion h2
                    | ok p5 =>
                      obtain ⟨asp, r5⟩ := p5
                      rw [hw5, except_bind_ok] at h
                      dsimp only at h
                      split at h
                      · cases hw6 : read_color_table r5 (packed &&& 7) with
                        | error e6 =>
                          rw [hw6, except_bind_error] at h
                          injection h with h2
                          rw [read_color_table_err _ _ e6 hw6] at h2
                          exact ParseErr.noConfusion h2
                        | ok p6 =>
                          obtain ⟨tbl, r6⟩ := p6
                          rw [hw6, except_bind_ok] at h
                          exact Except.noConfusion h
                      · exact Except.noConfusion h
          · rintro ⟨_, h | ⟨_, _, hne⟩⟩
            · obtain ⟨b, hb, hb2⟩ := h
              have := hascii b hb
              omega
            · exact absurd hsig hne

/-- `parse` raises the `ValueError` exactly when `parse_header` does: the
block loop after a good header only ever raises EOF errors. -/
theorem parse_badsig_iff_header (data : List Nat) :
    parse data = .error .badSignature ↔
      parse_header ⟨data, 0⟩ = .error .badSignature := by
  unfold parse
  cases hh : parse_header ⟨data, 0⟩ with
  | error e =>
    rw [except_bind_error]
    constructor
    · intro h
      injection h with h2
      rw [h2]
    · intro h
      injection h with h2
      rw [h2]
  | ok p =>
    obtain ⟨header, r⟩ := p
    rw [except_bind_ok]
    dsimp only
    constructor
    · intro h
      exfalso
      cases hpl : parseLoop header.globalColorTable (data.length + 1) r
          none [] with
      | error e2 =>
        rw [hpl, except_bind_error] at h
        injection h with h2
        rw [parseLoop_err _ _ _ _ _ _ hpl] at h2
        exact ParseErr.noConfusion h2
      | ok frames =>
        rw [hpl, except_bind_ok] at h
        exact Except.noConfusion h
    · intro h
      exact Except.noConfusion h

/-- C6 counterexample: on the 3-byte input `"XYZ"` the signature is not
`"GIF"`, yet `parse` fails with the EOF error (TruncatedInputError), not the
`ValueError` (FormatError) — the source reads the 3 version bytes before
comparing the signature — so the claim's "if and only if" fails. -/
theorem C6_counterexample :
    parse [88, 89, 90] = .error .eof ∧
    List.take 3 [88, 89, 90] ≠ [71, 73, 70] ∧
    parse [88, 89, 90] ≠ .error .badSignature := by
  decide

/-- C6 (amended): `parse` fails with the `ValueError` (FormatError) exactly
when the 3 signature bytes are present and either contain a non-ASCII byte
(at or above 128) or — the 3 version bytes also being present — differ from
`"GIF"`; every other failure, including a truncated version field after a
wrong ASCII signature, is the EOF error (TruncatedInputError), and the
embedding being total over `Except ParseErr`, no other fatal error escapes
`parse`. -/
theorem C6_amended (data : List Nat) :
    parse data = .error .badSignature ↔
      (3 ≤ data.length ∧
        ((∃ b ∈ data.take 3, 128 ≤ b) ∨
          (6 ≤ data.length ∧ (∀ b ∈ data.take 3, b < 128) ∧
            data.take 3 ≠ [71, 73, 70]))) :=
  (parse_badsig_iff_header data).trans (parse_header_badsig data)

/-- C6 witness: the amended characterization applied at a concrete non-ASCII
signature. -/
theorem C6_amended_witness :
    parse [255, 0, 0] = .error .badSignature :=
  (C6_amended [255, 0, 0]).mpr (by decide)

end GifSpec
